import Mathlib

/-!
Verification of the playground-elements bare-module / typings core.

This file shallowly embeds the code of `bare-module-transformer.ts`,
the `CachingCdn` module and the nested-layout `TypesFetcher` module, together
with the small path/specifier utilities they import. File contents are ordinary
`String`s; the JS string operations used by the code (`substring`, `split`,
`startsWith`, ...) are modeled over the underlying character lists, which agrees
with the JS code-unit semantics on the ASCII inputs the programs handle. The
injected capabilities (the browser `fetch`, `JSON.parse`, `es-module-lexer`,
`ts.preProcessFile`) are parameters of the embedding.

Functions that live in repository modules missing from the provided sources
(`util.ts`, `node-modules-layout-maker.ts`) are modeled from the specification
and marked `Modelled from the spec:` in their doc comments.
-/

namespace Playground

/-! ## Character-list string helpers -/

/-- JS `s.substring(0, a) + r + s.substring(b)` (the splice step of the rewrite loop). -/
def spliceStr (s : String) (a b : Nat) (r : String) : String :=
  ⟨s.data.take a ++ r.data ++ s.data.drop b⟩

/-- Split a character list on a separator; always returns at least one (possibly empty) field. -/
def splitOnChar (sep : Char) : List Char → List (List Char)
  | [] => [[]]
  | c :: cs =>
    let r := splitOnChar sep cs
    if c = sep then [] :: r
    else
      match r with
      | [] => [[c]]
      | h :: t => (c :: h) :: t

/-- Split at the first occurrence of `sep`: the part before it, and (if present) the part after. -/
def splitAtFirst (sep : Char) : List Char → List Char × Option (List Char)
  | [] => ([], none)
  | c :: cs =>
    if c = sep then ([], some cs)
    else
      let (a, b) := splitAtFirst sep cs
      (c :: a, b)

/-- Longest run of chars before the first char satisfying `stop`, plus the remainder. -/
def takeUntil (stop : Char → Bool) : List Char → List Char × List Char
  | [] => ([], [])
  | c :: cs =>
    if stop c then ([], c :: cs)
    else
      let (a, b) := takeUntil stop cs
      (c :: a, b)

def joinSlash : List String → String
  | [] => ""
  | [a] => a
  | a :: rest => a ++ "/" ++ joinSlash rest

def splitSlash (s : String) : List String :=
  (splitOnChar '/' s.data).map (fun cs => ⟨cs⟩)

/-! ## Data model -/

structure NpmFileLocation where
  pkg : String
  version : String
  path : String
deriving DecidableEq, Repr

/-- The subset of package.json fields the system consumes. -/
structure PackageJson where
  dependencies : List (String × String) := []
  main : Option String := none
  module : Option String := none
  types : Option String := none
  typings : Option String := none
deriving DecidableEq, Repr

/-! ## Specifier utilities (util.ts is missing from the provided sources) -/

inductive SpecifierKind where
  | url
  | bare
  | relative
deriving DecidableEq, Repr

def schemeRest : List Char → Bool
  | [] => false
  | c :: cs =>
    if c = ':' then true
    else (c.isAlphanum || c = '+' || c = '-' || c = '.') && schemeRest cs

/-- A leading URL scheme `protocol:` per the WHATWG grammar (letter, then
letters/digits/`+`/`-`/`.`, then `:`). -/
def hasUrlScheme (s : String) : Bool :=
  match s.data with
  | [] => false
  | c :: cs => c.isAlpha && schemeRest cs

/-- Modelled from the spec: `classifySpecifier` from the missing util module —
`url` if the specifier carries a scheme, `relative` if it starts with `./` or
`../`, otherwise `bare`. -/
def classifySpecifier (s : String) : SpecifierKind :=
  if hasUrlScheme s then .url
  else if ("./".data).isPrefixOf s.data || ("../".data).isPrefixOf s.data then .relative
  else .bare

/-- Modelled from the spec: `parseNpmStyleSpecifier` from the missing util module —
accepts `[@scope/]name[@version][/path]`, where a scoped name consumes exactly one
extra `/`-segment before a possible version; returns `none` on malformed input. -/
def parseNpmStyleSpecifier (s : String) : Option NpmFileLocation :=
  let step2 : List Char → List Char → Option NpmFileLocation := fun scopePart rest =>
    let (nm, r2) := takeUntil (fun c => c = '/' || c = '@') rest
    if nm.isEmpty then none
    else
      let pkg : String := ⟨scopePart ++ nm⟩
      match r2 with
      | '@' :: r3 =>
        let (ver, r4) := takeUntil (fun c => c = '/') r3
        if ver.isEmpty then none
        else
          match r4 with
          | '/' :: p => some ⟨pkg, ⟨ver⟩, ⟨p⟩⟩
          | _ => some ⟨pkg, ⟨ver⟩, ""⟩
      | '/' :: p => some ⟨pkg, "", ⟨p⟩⟩
      | _ => some ⟨pkg, "", ""⟩
  match s.data with
  | '@' :: cs =>
    let (sc, r) := takeUntil (fun c => c = '/' || c = '@') cs
    match r with
    | '/' :: r2 => if sc.isEmpty then none else step2 ('@' :: sc ++ ['/']) r2
    | _ => none
  | cs => step2 [] cs

/-- Modelled from the spec: `fileExtension` from the missing util module — the
extension (text after the last `.`) of the last `/`-segment of a path, or `""`. -/
def fileExtension (path : String) : String :=
  let seg := (splitOnChar '/' path.data).getLastD []
  match splitOnChar '.' seg with
  | [] => ""
  | [_] => ""
  | parts => ⟨parts.getLastD []⟩

/-- Modelled from the spec: `changeFileExtension` from the missing util module —
replace the extension of `path` by `ext` (append `.ext` when there is none). -/
def changeFileExtension (path ext : String) : String :=
  let old := fileExtension path
  if old = "" then path ++ "." ++ ext
  else ⟨path.data.take (path.data.length - old.data.length) ++ ext.data⟩

def countCommonPrefix : List String → List String → Nat
  | a :: as, b :: bs => if a = b then 1 + countCommonPrefix as bs else 0
  | _, _ => 0

/-- Modelled from the spec: `relativeUrlPath` from the missing util module — the
relative URL leading from file `f` to file `t` (`./`-prefixed when no `../` is
needed). -/
def relativeUrlPath (f t : String) : String :=
  let fp := splitSlash f
  let tp := splitSlash t
  let n := countCommonPrefix fp tp
  let up := fp.length - n - 1
  (if up = 0 then "./" else String.join (List.replicate up "../")) ++ joinSlash (tp.drop n)

def normalizeSegs : List String → List String → List String
  | [], acc => acc.reverse
  | "." :: rest, acc => normalizeSegs rest acc
  | ".." :: rest, acc => normalizeSegs rest (acc.drop 1)
  | s :: rest, acc => normalizeSegs rest (s :: acc)

/-- Modelled from the spec: `resolveUrlPath` from the missing util module — resolve
the relative specifier `rel` against the directory of `basePath`, URL-style,
returning an absolute path with a leading slash. -/
def resolveUrlPath (basePath rel : String) : String :=
  "/" ++ joinSlash (normalizeSegs ((splitSlash basePath).dropLast ++ splitSlash rel) [])

structure LineAndChar where
  line : Nat
  character : Nat
deriving DecidableEq, Repr

def lineAndCharAux : List Char → Nat → Nat → LineAndChar
  | [], l, c => ⟨l, c⟩
  | ch :: rest, l, c => if ch = '\n' then lineAndCharAux rest (l + 1) 0 else lineAndCharAux rest l (c + 1)

/-- Modelled from the spec: `charToLineAndChar` from the missing util module —
0-based line/column of character offset `off` in `s`. -/
def charToLineAndChar (s : String) (off : Nat) : LineAndChar :=
  lineAndCharAux (s.data.take off) 0 0

/-! ## `isExactVersion` (the semver regex at the bottom of the CDN module) -/

/-- A semver numeric identifier: `0|[1-9]\d*` (no leading zero). -/
def isSemverNum : List Char → Bool
  | [] => false
  | ['0'] => true
  | c :: cs => decide ('1' ≤ c ∧ c ≤ '9') && cs.all Char.isDigit

def isIdentChar (c : Char) : Bool := c.isAlphanum || c = '-'

/-- A prerelease identifier: `0|[1-9]\d*|\d*[a-zA-Z-][0-9a-zA-Z-]*`. -/
def isPrereleaseId (cs : List Char) : Bool :=
  !cs.isEmpty && cs.all isIdentChar && (cs.any (fun c => c.isAlpha || c = '-') || isSemverNum cs)

/-- A build identifier: `[0-9a-zA-Z-]+`. -/
def isBuildId (cs : List Char) : Bool := !cs.isEmpty && cs.all isIdentChar

/-- Embeds `isExactVersion` (the suggested semver regex):
`major.minor.patch` of numeric identifiers, an optional `-`-prefixed dot-separated
prerelease, and an optional `+`-prefixed dot-separated build part. -/
def isExactVersion (s : String) : Bool :=
  let (beforeBuild, build) := splitAtFirst '+' s.data
  let (core, pre) := splitAtFirst '-' beforeBuild
  (match splitOnChar '.' core with
   | [ma, mi, pa] => isSemverNum ma && isSemverNum mi && isSemverNum pa
   | _ => false)
  && (match pre with
      | none => true
      | some p => (splitOnChar '.' p).all isPrereleaseId)
  && (match build with
      | none => true
      | some b => (splitOnChar '.' b).all isBuildId)

example : isExactVersion "1.0.0" = true := by decide
example : isExactVersion "1.0.0-alpha.1+build-7" = true := by decide
example : isExactVersion "latest" = false := by decide
example : isExactVersion "^1.0.0" = false := by decide
example : isExactVersion "01.0.0" = false := by decide
example : fileExtension "index.js" = "js" := by decide
example : fileExtension "foo/bar" = "" := by decide
example : changeFileExtension "lib/main.js" "d.ts" = "lib/main.d.ts" := by decide
example : parseNpmStyleSpecifier "@foo/bar@1.0.0/index.js"
    = some ⟨"@foo/bar", "1.0.0", "index.js"⟩ := by decide
example : parseNpmStyleSpecifier "foo" = some ⟨"foo", "", ""⟩ := by decide
example : relativeUrlPath "some/sub/dir/index.js" "node_modules/foo@1.0.0/index.js"
    = "../../../node_modules/foo@1.0.0/index.js" := by decide
example : resolveUrlPath "node_modules/foo@1.0.0/other2.js" "./other1.js"
    = "/node_modules/foo@1.0.0/other1.js" := by decide

/-! ## CachingCdn -/

structure CdnFile where
  content : String
  contentType : String
deriving DecidableEq, Repr

/-- The response the injected `fetch` primitive delivers for a request URL:
HTTP status, the final (possibly redirected) URL, the body text, and the
content-type (with the `?? 'text/plain'` default already folded in). -/
structure NetResponse where
  status : Nat
  url : String
  body : String
  contentType : String
deriving DecidableEq, Repr

/-- The injected network capability: request URL → response. -/
def Network : Type := String → NetResponse

/-- The two caches of one `CachingCdn` instance. Both JS `Map`s are modeled as
association lists where `set` conses a (possibly shadowing) entry at the front
and `get` is `List.lookup` (newest entry wins, matching `Map.set` overwrite). -/
structure CdnState where
  versionCache : List (String × String) := []
  fileCache : List (String × String × CdnFile) := []
deriving DecidableEq, Repr

/-- `` `${pkg}@${version || 'latest'}` `` (the `pkgVersion` helper). -/
def pkgVersion (pkg version : String) : String :=
  pkg ++ "@" ++ (if version = "" then "latest" else version)

def trimLeadingSlash (s : String) : String :=
  match s.data with
  | '/' :: t => ⟨t⟩
  | _ => s

def trimTrailingSlash (s : String) : String :=
  if s.data.getLast? = some '/' then ⟨s.data.dropLast⟩ else s

/-- The `pkgVersionPath` helper. -/
def pkgVersionPath (loc : NpmFileLocation) : String :=
  trimTrailingSlash (pkgVersion loc.pkg loc.version ++ "/" ++ trimLeadingSlash loc.path)

/-- The version-cache consultation at the top of `CachingCdn._fetch` and
`CachingCdn.canonicalize`: an exact version stands; otherwise a previously
resolved version for `pkg@range` is substituted. Returns the (possibly
updated) location and the resulting `exact` flag. -/
def resolveFromVersionCache (st : CdnState) (loc : NpmFileLocation) : NpmFileLocation × Bool :=
  if isExactVersion loc.version then (loc, true)
  else
    match st.versionCache.lookup (pkgVersion loc.pkg loc.version) with
    | some r => ({loc with version := r}, true)
    | none => (loc, false)

/-- `CachingCdn._parseUnpkgUrl`. -/
def parseUnpkgUrl (base : String) (url : String) : Except String NpmFileLocation :=
  if base.data.isPrefixOf url.data then
    match parseNpmStyleSpecifier ⟨url.data.drop base.data.length⟩ with
    | some p => .ok p
    | none => .error ("Unexpected unpkg.com URL format: " ++ url)
  else .error ("Unexpected unpkg.com URL format: " ++ url)

inductive FetchDecision where
  | cached (url : String) (file : CdnFile)
  | mustFetch (url : String) (loc : NpmFileLocation) (exact : Bool)
deriving DecidableEq, Repr

/-- The synchronous prefix of `CachingCdn._fetch`, up to its only suspension
point (`await fetch(url)`): consult the version cache, then the file cache;
on a miss, decide to issue a network request for `base ++ pvp`. No cache is
written in this prefix. -/
def cdnFetchPhase1 (base : String) (st : CdnState) (loc0 : NpmFileLocation) :
    FetchDecision × CdnState :=
  let (loc, exact) := resolveFromVersionCache st loc0
  let pvp := pkgVersionPath loc
  match st.fileCache.lookup pvp with
  | some (url, file) => (.cached url file, st)
  | none => (.mustFetch (base ++ pvp) loc exact, st)

/-- The continuation of `CachingCdn._fetch` after the network response arrives:
a non-200 status throws `Unpkg <status> error: <body>`; otherwise, for a
non-exact request, the canonical location is parsed from the response URL and
the version cache updated; finally the file is cached under the canonical
`pkg@version/path` key. -/
def cdnFetchPhase2 (base : String) (st : CdnState) (loc : NpmFileLocation) (exact : Bool)
    (res : NetResponse) : Except String (String × CdnFile) × CdnState :=
  if res.status ≠ 200 then
    (.error ("Unpkg " ++ toString res.status ++ " error: " ++ res.body), st)
  else
    let file : CdnFile := ⟨res.body, res.contentType⟩
    if exact then
      (.ok (res.url, file),
       {st with fileCache := (pkgVersionPath loc, res.url, file) :: st.fileCache})
    else
      match parseUnpkgUrl base res.url with
      | .error e => (.error e, st)
      | .ok canonical =>
        (.ok (res.url, file),
         {st with
           versionCache := (pkgVersion loc.pkg loc.version, canonical.version) :: st.versionCache,
           fileCache := (pkgVersionPath canonical, res.url, file) :: st.fileCache})

deriving instance DecidableEq for Except

/-- Result of one CDN operation in the sequential (single-caller) semantics:
the value or thrown error, the updated caches, and the list of network
request URLs that were issued. -/
structure FetchOutcome (α : Type) where
  result : Except String α
  state : CdnState
  requests : List String
deriving Repr, DecidableEq

/-- `CachingCdn._fetch`, sequential semantics: phase 1, then (on a cache miss)
the network request and phase 2. -/
def cdnFetchRaw (base : String) (net : Network) (st : CdnState) (loc0 : NpmFileLocation) :
    FetchOutcome (String × CdnFile) :=
  match cdnFetchPhase1 base st loc0 with
  | (.cached url file, st1) => ⟨.ok (url, file), st1, []⟩
  | (.mustFetch url loc exact, st1) =>
    let (r, st2) := cdnFetchPhase2 base st1 loc exact (net url)
    ⟨r, st2, [url]⟩

/-- `CachingCdn.fetch` (public): `_fetch` projected to the file. -/
def cdnFetch (base : String) (net : Network) (st : CdnState) (loc : NpmFileLocation) :
    FetchOutcome CdnFile :=
  match cdnFetchRaw base net st loc with
  | ⟨.error e, st', reqs⟩ => ⟨.error e, st', reqs⟩
  | ⟨.ok (_, file), st', reqs⟩ => ⟨.ok file, st', reqs⟩

/-- `CachingCdn.canonicalize`: consult the version cache; when the version is
still not exact or the path has no file extension, `_fetch` and parse the
response URL; otherwise return the location unchanged. -/
def canonicalize (base : String) (net : Network) (st : CdnState) (loc0 : NpmFileLocation) :
    FetchOutcome NpmFileLocation :=
  let (loc, exact) := resolveFromVersionCache st loc0
  if !exact || fileExtension loc.path = "" then
    match cdnFetchRaw base net st loc with
    | ⟨.error e, st', reqs⟩ => ⟨.error e, st', reqs⟩
    | ⟨.ok (url, _), st', reqs⟩ =>
      match parseUnpkgUrl base url with
      | .error e => ⟨.error e, st', reqs⟩
      | .ok l => ⟨.ok l, st', reqs⟩
  else ⟨.ok loc, st, []⟩

/-- `CachingCdn.fetchPackageJson`: `_fetch` of `pkg@version/package.json`, then
`JSON.parse` (the injected `parseJson` capability); a parse failure throws
`JSON error from <url>: <content>`. -/
def fetchPackageJson (base : String) (net : Network) (parseJson : String → Option PackageJson)
    (st : CdnState) (pkg version : String) : FetchOutcome PackageJson :=
  match cdnFetchRaw base net st ⟨pkg, version, "package.json"⟩ with
  | ⟨.error e, st', reqs⟩ => ⟨.error e, st', reqs⟩
  | ⟨.ok (url, file), st', reqs⟩ =>
    match parseJson file.content with
    | some pj => ⟨.ok pj, st', reqs⟩
    | none => ⟨.error ("JSON error from " ++ url ++ ": " ++ file.content), st', reqs⟩

/-! ## BareModuleTransformer -/

/-- The injected capabilities of the transformer: the CDN base URL, the network,
and `JSON.parse` for package.json bodies. -/
structure Env where
  cdnBaseUrl : String
  net : Network
  parseJson : String → Option PackageJson

structure Diagnostic where
  message : String
  start : LineAndChar
  stop : LineAndChar
deriving DecidableEq, Repr

inductive BuildOutput where
  | file (name content : String) (contentType : Option String)
  | diagnostic (filename : String) (d : Diagnostic)
deriving DecidableEq, Repr

/-- One import-specifier occurrence as reported by `es-module-lexer`
(an injected capability): start/end character offsets of the specifier
(excluding quotes for dynamic imports), the specifier text when statically
analyzable, and the dynamic-import start (`-1` when not a dynamic import). -/
structure SpecInfo where
  s : Nat
  e : Nat
  n : Option String
  d : Int
deriving DecidableEq, Repr

/-- The version filled in for a versionless bare specifier (line 206-209 of the
transformer): the `dependencies` entry of the awaited project `package.json`
for this package, defaulting to `latest` when there is no entry or no
package.json. -/
def declaredVersion (pj : Option PackageJson) (pkg : String) : String :=
  (((pj.map (·.dependencies)).getD []).lookup pkg).getD "latest"

/-- The main-entry path discovered from a fetched `package.json` (line 212 of
the transformer): its `module` field, else its `main` field, else `index.js`. -/
def mainEntryPath (pjson : PackageJson) : String :=
  pjson.module.getD (pjson.main.getD "index.js")

/-- The canonicalization guard of `_transformBareSpecifier` (line 214):
`!fileExtension(location.path) || !isExactVersion(location.version)`. -/
def needsCanonicalize (loc : NpmFileLocation) : Bool :=
  fileExtension loc.path = "" || !isExactVersion loc.version

/-- `BareModuleTransformer._transformBareSpecifier`: parse the specifier; an
empty version is filled from the awaited project `package.json`'s
`dependencies` entry, defaulting to `latest`; an empty path is filled from the
fetched package's `module` then `main` field, defaulting to `index.js`; the
location is canonicalized when the path has no extension or the version is not
exact; the dependency is scheduled (returned alongside) and the specifier
rewritten to a relative URL under `node_modules/pkg@version/path`. -/
def transformBareSpecifier (env : Env) (pj : Option PackageJson) (specifier referrer : String)
    (st : CdnState) : FetchOutcome (String × List NpmFileLocation) :=
  match parseNpmStyleSpecifier specifier with
  | none => ⟨.error ("Invalid specifier: " ++ specifier), st, []⟩
  | some loc0 =>
    let loc1 :=
      if loc0.version = "" then {loc0 with version := declaredVersion pj loc0.pkg}
      else loc0
    let afterPath : FetchOutcome NpmFileLocation :=
      if loc1.path = "" then
        match fetchPackageJson env.cdnBaseUrl env.net env.parseJson st loc1.pkg loc1.version with
        | ⟨.error e, st', r⟩ => ⟨.error e, st', r⟩
        | ⟨.ok pjson, st', r⟩ =>
          ⟨.ok {loc1 with path := mainEntryPath pjson}, st', r⟩
      else ⟨.ok loc1, st, []⟩
    match afterPath with
    | ⟨.error e, st2, r2⟩ => ⟨.error e, st2, r2⟩
    | ⟨.ok loc2, st2, r2⟩ =>
      let afterCanon : FetchOutcome NpmFileLocation :=
        if needsCanonicalize loc2 then canonicalize env.cdnBaseUrl env.net st2 loc2
        else ⟨.ok loc2, st2, []⟩
      match afterCanon with
      | ⟨.error e, st3, r3⟩ => ⟨.error e, st3, r2 ++ r3⟩
      | ⟨.ok loc3, st3, r3⟩ =>
        let absolute := "node_modules/" ++ loc3.pkg ++ "@" ++ loc3.version ++ "/" ++ loc3.path
        ⟨.ok (relativeUrlPath referrer absolute, [loc3]), st3, r2 ++ r3⟩

/-- `BareModuleTransformer._transformSpecifier`: a `url` specifier is unchanged;
a `bare` specifier goes through `transformBareSpecifier`; a relative specifier
is unchanged for project-local referrers, while for a referrer under
`node_modules/` it is resolved against the referrer, canonicalized through the
CDN when extension-less, or directly scheduled as a dependency. -/
def transformSpecifier (env : Env) (pj : Option PackageJson) (specifier referrer : String)
    (st : CdnState) : FetchOutcome (String × List NpmFileLocation) :=
  match classifySpecifier specifier with
  | .url => ⟨.ok (specifier, []), st, []⟩
  | .bare => transformBareSpecifier env pj specifier referrer st
  | .relative =>
    if !(("node_modules/".data).isPrefixOf referrer.data) then ⟨.ok (specifier, []), st, []⟩
    else
      let absolute := resolveUrlPath referrer specifier
      let bare : String := ⟨absolute.data.drop ("/node_modules/".data.length)⟩
      if fileExtension specifier = "" then
        transformBareSpecifier env none bare referrer st
      else
        match parseNpmStyleSpecifier bare with
        | none => ⟨.error "wtf", st, []⟩
        | some loc => ⟨.ok (specifier, [loc]), st, []⟩

/-- The first loop of `_transformBareModuleSpecifiers`, which starts one
`_transformSpecifier` task per statically analyzable occurrence and pushes
`{info, newSpecifierPromise}` records onto `transforms`; called with the
occurrence list already reversed, mirroring the `i = specifiers.length-1 .. 0`
iteration. Results are threaded sequentially in that creation order. -/
def buildTransforms (env : Env) (pj : Option PackageJson) (referrer : String) (st : CdnState) :
    List SpecInfo →
    List (SpecInfo × Except String String) × CdnState × List String × List NpmFileLocation
  | [] => ([], st, [], [])
  | info :: rest =>
    match info.n with
    | none => buildTransforms env pj referrer st rest
    | some oldSpec =>
      match transformSpecifier env pj oldSpec referrer st with
      | ⟨r, st', reqs⟩ =>
        let rr : Except String String :=
          match r with
          | .ok (ns, _) => .ok ns
          | .error e => .error e
        let deps :=
          match r with
          | .ok (_, d) => d
          | .error _ => []
        let (ts, st2, reqs2, deps2) := buildTransforms env pj referrer st' rest
        ((info, rr) :: ts, st2, reqs ++ reqs2, deps ++ deps2)

/-- The second loop of `_transformBareModuleSpecifiers`, consuming the
`transforms` array from its last element down to index 0 (the argument list is
the phase-one list already reversed a second time): a rejected task yields a
`Could not resolve module` diagnostic whose range comes from the occurrence's
recorded offsets applied to the current `js` value; a resolved task whose new
specifier differs is spliced into `js` at those offsets, re-quoted when the
occurrence is a dynamic import. -/
def applyTransforms (filename : String) :
    String → List BuildOutput → List (SpecInfo × Except String String) →
    String × List BuildOutput
  | js, acc, [] => (js, acc)
  | js, acc, (info, r) :: rest =>
    match r with
    | .error e =>
      let d : BuildOutput := .diagnostic filename
        ⟨"Could not resolve module \"" ++ info.n.getD "" ++ "\": " ++ e,
         charToLineAndChar js info.s, charToLineAndChar js info.e⟩
      applyTransforms filename js (acc ++ [d]) rest
    | .ok newSpec =>
      if some newSpec = info.n then applyTransforms filename js acc rest
      else
        let repl := if info.d ≠ -1 then "\x27" ++ newSpec ++ "\x27" else newSpec
        applyTransforms filename (spliceStr js info.s info.e repl) acc rest

/-- `BareModuleTransformer._transformBareModuleSpecifiers` on a successfully
lexed file: phase one walks `specifiers` from last to first pushing task
records; phase two walks the pushed array from its last element to its first —
that is, in original source order — splicing replacements and emitting
diagnostics, and finally yields the rewritten file. Returns the outputs, the
CDN state, the issued request URLs, and the scheduled dependency locations. -/
def transformFile (env : Env) (pj : Option PackageJson) (name content : String)
    (contentType : Option String) (specifiers : List SpecInfo) (st : CdnState) :
    List BuildOutput × CdnState × List String × List NpmFileLocation :=
  let (ts, st', reqs, deps) := buildTransforms env pj name st specifiers.reverse
  let (js', outs) := applyTransforms name content [] ts.reverse
  (outs ++ [.file name js' contentType], st', reqs, deps)

/-- The project-manifest deferred of `BareModuleTransformer._process`: it
resolves to the first artifact named `package.json` whose body `JSON.parse`s
(a parse failure is caught and leaves the deferred pending), and to `none`
when the input stream ends unresolved. -/
def firstResolvedPackageJson (parseJson : String → Option PackageJson) :
    List (String × String) → Option PackageJson
  | [] => none
  | (n, c) :: rest =>
    if n = "package.json" then
      match parseJson c with
      | some pj => some pj
      | none => firstResolvedPackageJson parseJson rest
    else firstResolvedPackageJson parseJson rest

structure InputFile where
  name : String
  content : String
  contentType : Option String := none
deriving DecidableEq, Repr

def isJsFile (name : String) : Bool := ("sj.".data).isPrefixOf name.data.reverse

def processFiles (env : Env) (lexer : String → List SpecInfo) (pj : Option PackageJson)
    (st : CdnState) :
    List InputFile → List BuildOutput × CdnState × List String × List NpmFileLocation
  | [] => ([], st, [], [])
  | f :: rest =>
    if isJsFile f.name then
      let r1 := transformFile env pj f.name f.content f.contentType (lexer f.content) st
      let r2 := processFiles env lexer pj r1.2.1 rest
      (r1.1 ++ r2.1, r2.2.1, r1.2.2.1 ++ r2.2.2.1, r1.2.2.2 ++ r2.2.2.2)
    else
      let r2 := processFiles env lexer pj st rest
      (.file f.name f.content f.contentType :: r2.1, r2.2)

/-- `BareModuleTransformer._process` together with the per-file rewrite tasks
(recursive dependency crawling is modeled separately by `crawl`): every non-js
artifact passes through unchanged; each `.js` artifact is rewritten by
`transformFile` against the resolved project-manifest value, which every task
observes as the first successfully parsed `package.json` artifact, or `none`. -/
def processModel (env : Env) (lexer : String → List SpecInfo) (inputs : List InputFile)
    (st : CdnState) : List BuildOutput × CdnState × List String × List NpmFileLocation :=
  let pj := firstResolvedPackageJson env.parseJson (inputs.map fun f => (f.name, f.content))
  processFiles env lexer pj st inputs

/-! ## The dependency crawl of `_handleDependency`

`BareModuleTransformer._handleDependency` guards on the handled-set keyed by
`pkg@version/path`, fetches the file, emits it, and feeds its rewritten imports
back through the same machinery, which schedules one `_handleDependency` call
per dependency location discovered in the file. The crawl below models that
recursion over keys: `cdn k = some deps` means fetching key `k` succeeds and
rewriting the fetched module schedules the keys `deps`; `cdn k = none` means
the CDN fetch for `k` throws (the error is swallowed and nothing is emitted,
but the key stays handled). `U` is a finite universe containing every key the
`cdn` function mentions; it only serves termination and is dead weight under
the closure hypotheses of the theorems. -/

inductive CrawlEvent where
  | fetch (key : String)
  | emit (key : String)
deriving DecidableEq, Repr

/-- The `_handleDependency` crawl: process the work list left to right; a key
already handled (or outside `U`) is skipped with no fetch and no emission;
otherwise it is added to the handled-set, fetched, and, on success, emitted,
with its discovered dependencies appended to the work list. -/
def crawl (cdn : String → Option (List String)) (U : Finset String)
    (handled : Finset String) : List String → List CrawlEvent
  | [] => []
  | k :: rest =>
    if k ∈ handled ∨ k ∉ U then crawl cdn U handled rest
    else
      match cdn k with
      | none => .fetch k :: crawl cdn U (insert k handled) rest
      | some deps => .fetch k :: .emit k :: crawl cdn U (insert k handled) (deps ++ rest)
termination_by w => ((U \ handled).card, w.length)
decreasing_by
  · right
    simp
  · left
    apply Finset.card_lt_card
    constructor
    · intro x hx
      simp only [Finset.mem_sdiff, Finset.mem_insert] at *
      tauto
    · intro hsub
      rename_i h
      push_neg at h
      have := hsub (Finset.mem_sdiff.mpr ⟨h.2, h.1⟩)
      simp at this
  · left
    apply Finset.card_lt_card
    constructor
    · intro x hx
      simp only [Finset.mem_sdiff, Finset.mem_insert] at *
      tauto
    · intro hsub
      rename_i h
      push_neg at h
      have := hsub (Finset.mem_sdiff.mpr ⟨h.2, h.1⟩)
      simp at this

def fetchedKeys (t : List CrawlEvent) : List String :=
  t.filterMap fun e =>
    match e with
    | .fetch k => some k
    | .emit _ => none

def emittedKeys (t : List CrawlEvent) : List String :=
  t.filterMap fun e =>
    match e with
    | .emit k => some k
    | .fetch _ => none

/-- A key is reachable when it exists on the CDN and is a root or a dependency
of a reachable key's fetched file. -/
inductive Reachable (cdn : String → Option (List String)) (roots : List String) : String → Prop
  | root {k : String} {deps : List String} :
      k ∈ roots → cdn k = some deps → Reachable cdn roots k
  | step {j k : String} {jdeps kdeps : List String} :
      Reachable cdn roots j → cdn j = some jdeps → k ∈ jdeps → cdn k = some kdeps →
      Reachable cdn roots k

/-! ## TypesFetcher (the nested-layout variant) -/

/-- `Result<string, number>`: `.ok content` or `.error 404`. -/
abbrev FetchResult := Except Nat String

/-- The state of one `TypesFetcher` session (plus its CDN's caches). The JS
`Map`s/record objects are association lists; `_specifierToFetchResult` appends
in insertion order (each specifier is inserted at most once), while the
dependency graph records use shadowing cons, newest entry first. -/
structure TFState where
  handledSpecifiers : List String := []
  specifierToFetchResult : List (String × FetchResult) := []
  rootDependencies : List (String × String) := []
  dependencyGraph : List (String × List (String × List (String × String))) := []
  cdn : CdnState := {}
deriving DecidableEq, Repr

/-- `TypesFetcher._addDependency`: a `none` referrer records a root dependency;
otherwise the edge `from.pkg@from.version → to.pkg@to.version` is recorded in
the dependency graph. -/
def addDependency (st : TFState) (refr : Option (String × String)) (dep : String × String) :
    TFState :=
  match refr with
  | none => {st with rootDependencies := (dep.1, dep.2) :: st.rootDependencies}
  | some (fp, fv) =>
    let fromVersions := (st.dependencyGraph.lookup fp).getD []
    let deps := (fromVersions.lookup fv).getD []
    {st with dependencyGraph := (fp, (fv, (dep.1, dep.2) :: deps) :: fromVersions) :: st.dependencyGraph}

/-- `TypesFetcher._fetchAndAddToOutputFiles`: canonicalize the location (and the
referrer) — these two awaits sit outside any `try`, so their failures propagate
as `.error`; a specifier already in `_specifierToFetchResult` returns the
shared (deferred) result; otherwise the dependency edge is recorded, the file
fetched, and the result — `.error 404` when the CDN fetch threw — stored under
the canonical specifier. -/
def fetchAndAddToOutputFiles (env : Env) (st : TFState) (location : NpmFileLocation)
    (referrer : Option NpmFileLocation) : Except String FetchResult × TFState :=
  match canonicalize env.cdnBaseUrl env.net st.cdn location with
  | ⟨.error e, cdn', _⟩ => (.error e, {st with cdn := cdn'})
  | ⟨.ok loc, cdn1, _⟩ =>
    let st1 := {st with cdn := cdn1}
    let refStep : Except String (Option NpmFileLocation) × TFState :=
      match referrer with
      | none => (.ok none, st1)
      | some r =>
        match canonicalize env.cdnBaseUrl env.net st1.cdn r with
        | ⟨.error e, cdn2, _⟩ => (.error e, {st1 with cdn := cdn2})
        | ⟨.ok r', cdn2, _⟩ => (.ok (some r'), {st1 with cdn := cdn2})
    match refStep with
    | (.error e, st2) => (.error e, st2)
    | (.ok ref', st2) =>
      let specifier := loc.pkg ++ "@" ++ loc.version ++ "/" ++ loc.path
      match st2.specifierToFetchResult.lookup specifier with
      | some r => (.ok r, st2)
      | none =>
        let st3 := addDependency st2 (ref'.map fun r => (r.pkg, r.version)) (loc.pkg, loc.version)
        match cdnFetch env.cdnBaseUrl env.net st3.cdn loc with
        | ⟨.error _, cdn', _⟩ =>
          let res : FetchResult := .error 404
          (.ok res,
           {st3 with
              cdn := cdn',
              specifierToFetchResult := st3.specifierToFetchResult ++ [(specifier, res)]})
        | ⟨.ok file, cdn', _⟩ =>
          let res : FetchResult := .ok file.content
          (.ok res,
           {st3 with
              cdn := cdn',
              specifierToFetchResult := st3.specifierToFetchResult ++ [(specifier, res)]})

/-- The injected `ts.preProcessFile` scanner: source text → (imported-file
specifiers, lib reference directives). -/
def Scanner : Type := String → List String × List String

/-! The crawl of one `TypesFetcher`, with an explicit fuel bound on recursion
depth (the real crawl terminates because the handled-set keeps any key from
being expanded twice; every theorem below either holds for all fuel values or
instantiates fuel large enough for the instance at hand). The memoized
`getPackageJson` thunks are modeled by the `Option PackageJson` values they
resolve to; errors (`Except.error`) propagate exactly where the source has no
`try`/`catch` around an `await`.

`tfHandleBareSpecifier` is `_handleBareSpecifier`: dedup on the raw specifier
key `pkg@version/path`, main-module discovery through the package's own
`package.json` (`typings` then `types` then `main` with a `d.ts` extension,
else `index.d.ts`), dedup on the resolved d.ts specifier, fetch, and recursion
into the fetched text; its internal fetch/parse steps are wrapped in
`try { .. } catch { return }`.

`tfHandleRelativeSpecifier` is `_handleRelativeSpecifier`: resolve the sibling
path against the referrer's own path, swap the extension to `d.ts`, dedup on
`pkg/dtsPath`, fetch within the referrer's own package and version, recurse.

`tfHandleBareAndRelativeSpecifiers` is `_handleBareAndRelativeSpecifiers`,
scanning a fetched file and joining one task per discovered specifier (the
lib-reference tasks run `_addLibTypings` with a `null` referrer). Fuel is
decremented on every call. -/

mutual

/-- `TypesFetcher._handleBareSpecifier` up to the discovery of `dtsPath`. -/
def tfHandleBareSpecifier (env : Env) (scan : Scanner) :
    Nat → TFState → String → Option NpmFileLocation → Option PackageJson →
    Except String TFState
  | 0, st, _, _, _ => .ok st
  | fuel + 1, st, bare, referrer, gpj =>
    match parseNpmStyleSpecifier bare with
    | none => .ok st
    | some npm0 =>
      let npm :=
        if npm0.version = "" then {npm0 with version := declaredVersion gpj npm0.pkg}
        else npm0
      let key := npm.pkg ++ "@" ++ npm.version ++ "/" ++ npm.path
      if key ∈ st.handledSpecifiers then .ok st
      else
        let st1 := {st with handledSpecifiers := key :: st.handledSpecifiers}
        if npm.path = "" then
          match fetchAndAddToOutputFiles env st1 ⟨npm.pkg, npm.version, "package.json"⟩ referrer with
          | (.error _, st2) => .ok st2
          | (.ok (.error _), st2) =>
            tfHandleBareTail env scan fuel st2 npm "index.d.ts" referrer
          | (.ok (.ok content), st2) =>
            match env.parseJson content with
            | none => .ok st2
            | some pjson =>
              let dtsPath :=
                pjson.typings.getD
                  (pjson.types.getD
                    ((pjson.main.map (fun m => changeFileExtension m "d.ts")).getD "index.d.ts"))
              tfHandleBareTail env scan fuel st2 npm dtsPath referrer
        else
          tfHandleBareTail env scan fuel st1 npm (changeFileExtension npm.path "d.ts") referrer

/-- The remainder of `_handleBareSpecifier` from the `dtsSpecifier` dedup on:
fetch the declaration file and recurse into it, the recursion's
`getPackageJson` being the memoized `getPackageJson2` thunk (modeled by the
value it resolves to: the package's own `package.json`, or `none` when that
fetch throws). -/
def tfHandleBareTail (env : Env) (scan : Scanner) :
    Nat → TFState → NpmFileLocation → String → Option NpmFileLocation →
    Except String TFState
  | 0, st, _, _, _ => .ok st
  | fuel + 1, st, npm, dtsPath, referrer =>
    let dtsSpecifier := npm.pkg ++ "@" ++ npm.version ++ "/" ++ dtsPath
    if dtsSpecifier ∈ st.handledSpecifiers then .ok st
    else
      let st1 := {st with handledSpecifiers := dtsSpecifier :: st.handledSpecifiers}
      match fetchAndAddToOutputFiles env st1 ⟨npm.pkg, npm.version, dtsPath⟩ referrer with
      | (.error _, st2) => .ok st2
      | (.ok (.error _), st2) => .ok st2
      | (.ok (.ok content), st2) =>
        let gpj2st :=
          match fetchPackageJson env.cdnBaseUrl env.net env.parseJson st2.cdn npm.pkg npm.version with
          | ⟨.error _, cdn', _⟩ => ((none : Option PackageJson), {st2 with cdn := cdn'})
          | ⟨.ok pj, cdn', _⟩ => (some pj, {st2 with cdn := cdn'})
        tfHandleBareAndRelativeSpecifiers env scan fuel gpj2st.2 content
          ⟨npm.pkg, npm.version, dtsPath⟩ gpj2st.1

def tfHandleRelativeSpecifier (env : Env) (scan : Scanner) :
    Nat → TFState → String → NpmFileLocation → Option PackageJson →
    Except String TFState
  | 0, st, _, _, _ => .ok st
  | fuel + 1, st, relative, referrer, gpj =>
    let jsPath : String := ⟨(resolveUrlPath referrer.path relative).data.drop 1⟩
    let dtsPath := changeFileExtension jsPath "d.ts"
    let dtsSpecifier := referrer.pkg ++ "/" ++ dtsPath
    if dtsSpecifier ∈ st.handledSpecifiers then .ok st
    else
      let st1 := {st with handledSpecifiers := dtsSpecifier :: st.handledSpecifiers}
      match fetchAndAddToOutputFiles env st1 ⟨referrer.pkg, referrer.version, dtsPath⟩ (some referrer) with
      | (.error _, st2) => .ok st2
      | (.ok (.error _), st2) => .ok st2
      | (.ok (.ok content), st2) =>
        tfHandleBareAndRelativeSpecifiers env scan fuel st2 content
          ⟨referrer.pkg, referrer.version, dtsPath⟩ gpj

def tfHandleImportList (env : Env) (scan : Scanner) :
    Nat → TFState → List String → NpmFileLocation → Option PackageJson →
    Except String TFState
  | 0, st, _, _, _ => .ok st
  | _ + 1, st, [], _, _ => .ok st
  | fuel + 1, st, spec :: rest, referrer, gpj =>
    let head : Except String TFState :=
      match classifySpecifier spec with
      | .bare => tfHandleBareSpecifier env scan fuel st spec (some referrer) gpj
      | .relative => tfHandleRelativeSpecifier env scan fuel st spec referrer gpj
      | .url => .ok st
    match head with
    | .error e => .error e
    | .ok st1 => tfHandleImportList env scan fuel st1 rest referrer gpj

def tfHandleLibList (env : Env) (scan : Scanner) :
    Nat → TFState → List String → Option PackageJson → Except String TFState
  | 0, st, _, _ => .ok st
  | _ + 1, st, [], _ => .ok st
  | fuel + 1, st, lib :: rest, gpj =>
    match tfHandleBareSpecifier env scan fuel st
        ("typescript/lib/lib." ++ lib.toLower ++ ".js") none gpj with
    | .error e => .error e
    | .ok st1 => tfHandleLibList env scan fuel st1 rest gpj

def tfHandleBareAndRelativeSpecifiers (env : Env) (scan : Scanner) :
    Nat → TFState → String → NpmFileLocation → Option PackageJson →
    Except String TFState
  | 0, st, _, _, _ => .ok st
  | fuel + 1, st, sourceText, referrer, gpj =>
    let scanned := scan sourceText
    match tfHandleImportList env scan fuel st scanned.1 referrer gpj with
    | .error e => .error e
    | .ok st1 => tfHandleLibList env scan fuel st1 scanned.2 gpj

end

/-- The entry-point bare-import tasks of `addBareModuleTypings`, joined in
order (each with a `null` referrer). -/
def tfHandleEntryBares (env : Env) (scan : Scanner) (fuel : Nat) (gpj : Option PackageJson) :
    List String → TFState → Except String TFState
  | [], st => .ok st
  | b :: rest, st =>
    match tfHandleBareSpecifier env scan fuel st b none gpj with
    | .error e => .error e
    | .ok st1 => tfHandleEntryBares env scan fuel gpj rest st1

/-- `TypesFetcher.addBareModuleTypings`: scan the entry source, scheduling one
`_handleBareSpecifier` task (with a `null` referrer) per bare import and one
lib task per lib reference directive; relative entry imports are ignored. -/
def tfAddBareModuleTypings (env : Env) (scan : Scanner) (fuel : Nat) (st : TFState)
    (sourceText : String) (gpj : Option PackageJson) : Except String TFState :=
  let scanned := scan sourceText
  let bares := scanned.1.filter (fun s => classifySpecifier s = .bare)
  match tfHandleEntryBares env scan fuel gpj bares st with
  | .error e => .error e
  | .ok st1 => tfHandleLibList env scan fuel st1 scanned.2 gpj

/-! ## NodeModulesLayoutMaker and `getFiles` -/

/-- `NodeModulesDirectory`: a recursive `pkg → (version, nested directory)` tree. -/
inductive NMDir where
  | mk (entries : List (String × String × NMDir))
deriving Repr

def NMDir.entries : NMDir → List (String × String × NMDir)
  | .mk es => es

/-- Keep the first entry for every key (JS `Map`-style key uniqueness for the
shadowing association lists of the model). -/
def dedupKeysAux {α : Type} (seen : List String) : List (String × α) → List (String × α)
  | [] => []
  | (k, v) :: rest =>
    if k ∈ seen then dedupKeysAux seen rest
    else (k, v) :: dedupKeysAux (k :: seen) rest

def dedupKeys {α : Type} (l : List (String × α)) : List (String × α) := dedupKeysAux [] l

/-- The dependencies `graph[pkg][version]` recorded for one package/version. -/
def graphDeps (graph : List (String × List (String × List (String × String))))
    (pkg version : String) : List (String × String) :=
  dedupKeys ((((graph.lookup pkg).getD []).lookup version).getD [])

/-- Modelled from the spec: the hoisting pass of `NodeModulesLayoutMaker.layout`
(the module is missing from the provided sources) — every root dependency, and
then every transitively required package, is placed at the top level at the
first version discovered for it (root requirements first). -/
def hoistTop (graph : List (String × List (String × List (String × String)))) :
    Nat → List (String × String) → List (String × String) → List (String × String)
  | 0, top, _ => top
  | _ + 1, top, [] => top
  | fuel + 1, top, (p, v) :: queue =>
    let fresh := (graphDeps graph p v).filter (fun d => (top.lookup d.1).isNone)
    hoistTop graph fuel (top ++ fresh) (queue ++ fresh)

/-- Modelled from the spec: the nesting pass of `NodeModulesLayoutMaker.layout` —
for each edge `P@v → D@dv`, when `D` is already placed along the path from the
root to `P` at a version other than `dv`, a copy of `D@dv` is nested directly
under `P`'s own directory; `chain` is the list of placements visible by walking
up from `P` (nearest first, the top level last). -/
def nestDir (graph : List (String × List (String × List (String × String)))) :
    Nat → List (String × String) → String → String → NMDir
  | 0, _, _, _ => .mk []
  | fuel + 1, chain, p, v =>
    let conflicts := (graphDeps graph p v).filter
      (fun d =>
        match chain.lookup d.1 with
        | some dv' => dv' ≠ d.2
        | none => false)
    .mk (conflicts.map (fun d => (d.1, d.2, nestDir graph fuel (conflicts ++ chain) d.1 d.2)))

/-- Modelled from the spec: `NodeModulesLayoutMaker.layout` — hoist every
package that can share a placement, nest a conflicting-version copy under its
requirer. -/
def layoutModel (rootDeps : List (String × String))
    (graph : List (String × List (String × List (String × String)))) (fuel : Nat) : NMDir :=
  let top := hoistTop graph fuel (dedupKeys rootDeps) (dedupKeys rootDeps)
  .mk (top.map (fun d => (d.1, d.2, nestDir graph fuel top d.1 d.2)))

/-- The `filesByPv` grouping at the top of `TypesFetcher.getFiles`: every
fetched specifier with a non-error result contributes `(path, content)` to the
bucket of its `pkg@version`. -/
def filesByPvOf : List (String × FetchResult) → List (String × List (String × String))
  | [] => []
  | (spec, res) :: rest =>
    let acc := filesByPvOf rest
    match res with
    | .error _ => acc
    | .ok content =>
      match parseNpmStyleSpecifier spec with
      | none => acc
      | some loc =>
        let pv := loc.pkg ++ "@" ++ loc.version
        match acc.lookup pv with
        | some files => (pv, (loc.path, content) :: files) :: acc
        | none => (pv, [(loc.path, content)]) :: acc

mutual

/-- `TypesFetcher._buildFiles`: emit every file of every package of the layout
directory at `pfx / pkg / path`, recursing into `pfx / pkg / node_modules`. -/
def buildFilesDir (filesByPv : List (String × List (String × String))) (pfx : String) :
    NMDir → List (String × String)
  | .mk entries => buildFilesEntries filesByPv (if pfx = "" then "" else pfx ++ "/") entries

def buildFilesEntries (filesByPv : List (String × List (String × String))) (pfx2 : String) :
    List (String × String × NMDir) → List (String × String)
  | [] => []
  | (pkg, version, nested) :: rest =>
    let files := (filesByPv.lookup (pkg ++ "@" ++ version)).getD []
    files.map (fun f => (pfx2 ++ pkg ++ "/" ++ f.1, f.2))
      ++ buildFilesDir filesByPv (pfx2 ++ pkg ++ "/node_modules") nested
      ++ buildFilesEntries filesByPv pfx2 rest

end

/-- `TypesFetcher.getFiles` after all crawl tasks have settled: group the
non-error fetch results by `pkg@version`, lay the packages out with the
layout maker, and emit each file at its physical path. -/
def getFilesModel (st : TFState) (fuel : Nat) : List (String × String) :=
  buildFilesDir (filesByPvOf st.specifierToFetchResult) ""
    (layoutModel (dedupKeys st.rootDependencies.reverse) st.dependencyGraph fuel)

mutual

def countPkgDir (pkg : String) : NMDir → Nat
  | .mk entries => countPkgEntries pkg entries

def countPkgEntries (pkg : String) : List (String × String × NMDir) → Nat
  | [] => 0
  | (p, _, nested) :: rest =>
    (if p = pkg then 1 else 0) + countPkgDir pkg nested + countPkgEntries pkg rest

end

/-! ## Auxiliary definitions for the theorems -/

/-- Modelled from the spec: the replacement order the specification claims —
the recorded occurrences are applied to the original text back-to-front, the
occurrence with the greatest character offset spliced first. Since phase one
already walks `specifiers` from last to first, this applies the phase-one list
in its own order (no second reversal). -/
def transformFileBackToFront (env : Env) (pj : Option PackageJson) (name content : String)
    (contentType : Option String) (specifiers : List SpecInfo) (st : CdnState) :
    List BuildOutput × CdnState × List String × List NpmFileLocation :=
  let (ts, st', reqs, deps) := buildTransforms env pj name st specifiers.reverse
  let (js', outs) := applyTransforms name content [] ts
  (outs ++ [.file name js' contentType], st', reqs, deps)

def decisionRequests : FetchDecision → Nat
  | .cached _ _ => 0
  | .mustFetch _ _ _ => 1

/-- Two concurrent callers of `CachingCdn._fetch` for the same location, both
reaching the function's only suspension point (`await fetch`) before either
response has arrived: the second caller runs the synchronous prefix on the
state exactly as the first left it. Counts the network requests issued. -/
def concurrentFetchRequests (base : String) (st : CdnState) (loc : NpmFileLocation) : Nat :=
  let step1 := cdnFetchPhase1 base st loc
  let step2 := cdnFetchPhase1 base step1.2 loc
  decisionRequests step1.1 + decisionRequests step2.1

/-! Concrete instances: a CDN base and fake networks mirroring the repository's
fake-CDN test fixtures. Opaque body strings stand for the JSON documents, with
the injected `JSON.parse` mapping them to their parsed values. -/

def unpkgBase : String := "https://unpkg.com/"

/-- A network hosting `foo@1.0.0/index.js` (`latest` resolving to `1.0.0`),
with every other URL a 404 whose body is `Not Found`. -/
def fooNet : Network := fun url =>
  if url = "https://unpkg.com/foo@1.0.0/index.js" then
    ⟨200, url, "foo1", "text/javascript; charset=utf-8"⟩
  else if url = "https://unpkg.com/foo@latest/index.js" then
    ⟨200, "https://unpkg.com/foo@1.0.0/index.js", "foo1", "text/javascript; charset=utf-8"⟩
  else ⟨404, url, "Not Found", "text/plain"⟩

def fooEnv : Env := ⟨unpkgBase, fooNet, fun _ => none⟩

/-- A network hosting `foo` at versions `1.0.0` and `2.0.0` with `latest`
resolving to `2.0.0` and the range `^1.0.0` resolving to `1.0.0`; both
versions publish `index.js` and a `package.json` (body `PJ-EMPTY`). -/
def fooTwoVersionsNet : Network := fun url =>
  if url = "https://unpkg.com/foo@1.0.0/index.js" then
    ⟨200, url, "foo1", "text/javascript; charset=utf-8"⟩
  else if url = "https://unpkg.com/foo@2.0.0/index.js" then
    ⟨200, url, "foo2", "text/javascript; charset=utf-8"⟩
  else if url = "https://unpkg.com/foo@latest/index.js" then
    ⟨200, "https://unpkg.com/foo@2.0.0/index.js", "foo2", "text/javascript; charset=utf-8"⟩
  else if url = "https://unpkg.com/foo@^1.0.0/index.js" then
    ⟨200, "https://unpkg.com/foo@1.0.0/index.js", "foo1", "text/javascript; charset=utf-8"⟩
  else if url = "https://unpkg.com/foo@^1.0.0/package.json" then
    ⟨200, "https://unpkg.com/foo@1.0.0/package.json", "PJ-EMPTY", "application/json"⟩
  else if url = "https://unpkg.com/foo@latest/package.json" then
    ⟨200, "https://unpkg.com/foo@2.0.0/package.json", "PJ-EMPTY", "application/json"⟩
  else if url = "https://unpkg.com/foo@1.0.0/package.json" then
    ⟨200, url, "PJ-EMPTY", "application/json"⟩
  else if url = "https://unpkg.com/foo@2.0.0/package.json" then
    ⟨200, url, "PJ-EMPTY", "application/json"⟩
  else ⟨404, url, "Not Found", "text/plain"⟩

/-- `JSON.parse` for the instance documents: `PJ-EMPTY` is `{}` and
`PJ-FOO-CARET-1` declares the dependency `foo: ^1.0.0`; everything else
(such as `INVALID JSON`) fails to parse. -/
def instParseJson : String → Option PackageJson := fun s =>
  if s = "PJ-EMPTY" then some {}
  else if s = "PJ-FOO-CARET-1" then some { dependencies := [("foo", "^1.0.0")] }
  else none

def fooTwoEnv : Env := ⟨unpkgBase, fooTwoVersionsNet, instParseJson⟩

/-- The lexer output for the single-import file `import "foo";`. -/
def importFooSpecifiers : List SpecInfo := [⟨8, 11, some "foo", -1⟩]

def importFooLexer : String → List SpecInfo := fun c =>
  if c = "import \"foo\";" then importFooSpecifiers else []

/-! ## Theorems -/

theorem canonicalize_exact_ext (base : String) (net : Network)
    (st : CdnState) (loc : NpmFileLocation)
    (hv : isExactVersion loc.version = true) (hp : fileExtension loc.path ≠ "") :
    canonicalize base net st loc = ⟨.ok loc, st, []⟩ := by
  unfold canonicalize resolveFromVersionCache
  simp [hv, hp]

/-- C7: for every `NpmFileLocation` whose version is already an exact semver
triple and whose path has a non-empty file extension, `CachingCdn.canonicalize`
returns the location unchanged, mutates neither cache, and issues no network
request. -/
theorem canonicalize_exact_with_extension_noop (base : String) (net : Network)
    (st : CdnState) (loc : NpmFileLocation)
    (hv : isExactVersion loc.version = true) (hp : fileExtension loc.path ≠ "") :
    canonicalize base net st loc = ⟨.ok loc, st, []⟩ :=
  canonicalize_exact_ext base net st loc hv hp

/-- Witness for C7 at `foo@1.0.0/index.js` with empty caches. -/
theorem canonicalize_exact_with_extension_noop_witness :
    isExactVersion "1.0.0" = true ∧ fileExtension "index.js" ≠ "" ∧
    canonicalize unpkgBase fooNet {} ⟨"foo", "1.0.0", "index.js"⟩
      = ⟨.ok ⟨"foo", "1.0.0", "index.js"⟩, {}, []⟩ :=
  ⟨by decide, by decide,
   canonicalize_exact_with_extension_noop unpkgBase fooNet {} ⟨"foo", "1.0.0", "index.js"⟩
     (by decide) (by decide)⟩

/-- C6 (counterexample): two concurrent callers of `CachingCdn._fetch` for the
same canonical key `foo@1.0.0/index.js`, the second arriving while the first
is still awaiting the network, issue two network requests — `_fetch` memoizes
only completed results, so the claimed at-most-one-fetch coalescing fails. -/
theorem concurrent_fetch_not_coalesced :
    concurrentFetchRequests unpkgBase {} ⟨"foo", "1.0.0", "index.js"⟩ = 2 ∧
    ¬ concurrentFetchRequests unpkgBase {} ⟨"foo", "1.0.0", "index.js"⟩ ≤ 1 := by
  constructor
  · decide
  · decide

/-- C6 (amended): `CachingCdn._fetch` coalesces completed results only — a call
whose canonical key is in the file cache returns the cached value with no
network request and no state change; and the synchronous prefix of `_fetch`
(everything before its suspension point) never writes the caches, which is why
a second in-flight caller for the same key issues its own request. -/
theorem fetch_memoizes_completed_results :
    (∀ (base : String) (net : Network) (st : CdnState) (loc : NpmFileLocation)
       (url : String) (file : CdnFile),
       st.fileCache.lookup (pkgVersionPath (resolveFromVersionCache st loc).1) = some (url, file) →
       cdnFetchRaw base net st loc = ⟨.ok (url, file), st, []⟩)
    ∧ (∀ (base : String) (st : CdnState) (loc : NpmFileLocation),
       (cdnFetchPhase1 base st loc).2 = st) := by
  constructor
  · intro base net st loc url file h
    unfold cdnFetchRaw cdnFetchPhase1
    simp [h]
  · intro base st loc
    rcases hres : resolveFromVersionCache st loc with ⟨l, ex⟩
    unfold cdnFetchPhase1
    rw [hres]
    rcases hl : List.lookup (pkgVersionPath l) st.fileCache with _ | ⟨u, f⟩ <;> simp [hl]

/-- Witness for the amended C6: with `foo@1.0.0/index.js` already in the file
cache, a fresh `_fetch` answers from the cache with no network request. -/
theorem fetch_memoizes_completed_results_witness :
    (CdnState.mk [] [("foo@1.0.0/index.js", "u", ⟨"c", "t"⟩)]).fileCache.lookup
        (pkgVersionPath (resolveFromVersionCache
          (CdnState.mk [] [("foo@1.0.0/index.js", "u", ⟨"c", "t"⟩)])
          ⟨"foo", "1.0.0", "index.js"⟩).1) = some ("u", ⟨"c", "t"⟩) ∧
    cdnFetchRaw unpkgBase fooNet (CdnState.mk [] [("foo@1.0.0/index.js", "u", ⟨"c", "t"⟩)])
        ⟨"foo", "1.0.0", "index.js"⟩
      = ⟨.ok ("u", ⟨"c", "t"⟩), CdnState.mk [] [("foo@1.0.0/index.js", "u", ⟨"c", "t"⟩)], []⟩ :=
  ⟨by decide,
   fetch_memoizes_completed_results.1 unpkgBase fooNet
     (CdnState.mk [] [("foo@1.0.0/index.js", "u", ⟨"c", "t"⟩)])
     ⟨"foo", "1.0.0", "index.js"⟩ "u" ⟨"c", "t"⟩ (by decide)⟩

/-- C3 (code bug): the replacement loop applies the recorded occurrences to the
original text front-to-back, not back-to-front — the first loop pushes the
occurrences in reverse order and the second loop walks that array in reverse
again — so with two static imports of `foo/index.js` on one line the second
splice, applied at the original offsets after the first replacement changed
the text length, corrupts the output; applying the same resolved replacements
back-to-front (greatest offset first), as the claim states, yields the correct
rewrite. A dynamic-import replacement is indeed wrapped in quotes. -/
theorem splice_order_front_to_back_bug :
    (transformFile fooEnv none "index.js"
        "import \"foo/index.js\";import \"foo/index.js\";" none
        [⟨8, 20, some "foo/index.js", -1⟩, ⟨30, 42, some "foo/index.js", -1⟩] {}).1
      = [.file "index.js"
          "import \"./node_modules/foo@1.0./node_modules/foo@1.0.0/index.js;import \"foo/index.js\";"
          none]
    ∧ (transformFileBackToFront fooEnv none "index.js"
        "import \"foo/index.js\";import \"foo/index.js\";" none
        [⟨8, 20, some "foo/index.js", -1⟩, ⟨30, 42, some "foo/index.js", -1⟩] {}).1
      = [.file "index.js"
          "import \"./node_modules/foo@1.0.0/index.js\";import \"./node_modules/foo@1.0.0/index.js\";"
          none]
    ∧ (transformFile fooEnv none "index.js"
        "import \"foo/index.js\";import \"foo/index.js\";" none
        [⟨8, 20, some "foo/index.js", -1⟩, ⟨30, 42, some "foo/index.js", -1⟩] {}).1
      ≠ (transformFileBackToFront fooEnv none "index.js"
        "import \"foo/index.js\";import \"foo/index.js\";" none
        [⟨8, 20, some "foo/index.js", -1⟩, ⟨30, 42, some "foo/index.js", -1⟩] {}).1
    ∧ (applyTransforms "f.js" "import(\x27foo\x27);" []
        [(⟨7, 12, some "foo", 7⟩, .ok "NEW")]).1 = "import(\x27NEW\x27);" := by
  refine ⟨by decide, by decide, ?_, by decide⟩
  decide

/-- C4 (code bug): a failing specifier does leave the import in place in the
emitted file and yields exactly one diagnostic embedding the CDN error body —
with a single import the range is exactly the specifier's quoted text, columns
8–29 — but the range is computed from the occurrence's offsets against the
already partially rewritten text (a consequence of the front-to-back splice
order), so when an earlier successful replacement changes the text length the
diagnostic range no longer spans the failing specifier's quoted text: for the
two-line input it is 0:31–1:8 instead of the claimed 1:8–1:29. -/
theorem failed_resolution_diagnostic_range_bug :
    (transformFile fooEnv none "index.js" "import \"non-existent/index.js\";" none
        [⟨8, 29, some "non-existent/index.js", -1⟩] {}).1
      = [.diagnostic "index.js"
          ⟨"Could not resolve module \"non-existent/index.js\": Unpkg 404 error: Not Found",
           ⟨0, 8⟩, ⟨0, 29⟩⟩,
         .file "index.js" "import \"non-existent/index.js\";" none]
    ∧ (transformFile fooEnv none "index.js"
        "import \"foo/index.js\";\nimport \"non-existent/index.js\";" none
        [⟨8, 20, some "foo/index.js", -1⟩, ⟨31, 52, some "non-existent/index.js", -1⟩] {}).1
      = [.diagnostic "index.js"
          ⟨"Could not resolve module \"non-existent/index.js\": Unpkg 404 error: Not Found",
           ⟨0, 31⟩, ⟨1, 8⟩⟩,
         .file "index.js"
           "import \"./node_modules/foo@1.0.0/index.js\";\nimport \"non-existent/index.js\";" none]
    ∧ charToLineAndChar "import \"foo/index.js\";\nimport \"non-existent/index.js\";" 31 = ⟨1, 8⟩
    ∧ charToLineAndChar "import \"foo/index.js\";\nimport \"non-existent/index.js\";" 52 = ⟨1, 29⟩
    ∧ (⟨0, 31⟩ : LineAndChar) ≠ ⟨1, 8⟩ := by
  exact ⟨by decide, by decide, by decide, by decide, by decide⟩

/-- Every non-js artifact passes through `processFiles` unchanged. -/
theorem processFiles_passthrough (env : Env) (lexer : String → List SpecInfo)
    (pj : Option PackageJson) (st : CdnState) (inputs : List InputFile) (f : InputFile)
    (hf : f ∈ inputs) (hjs : isJsFile f.name = false) :
    BuildOutput.file f.name f.content f.contentType ∈ (processFiles env lexer pj st inputs).1 := by
  induction inputs generalizing st with
  | nil => cases hf
  | cons x rest ih =>
    rcases List.mem_cons.mp hf with rfl | hf
    · unfold processFiles
      rw [hjs]
      simp
    · unfold processFiles
      by_cases hx : isJsFile x.name
      · rw [if_pos hx]
        simp only [List.mem_append]
        exact Or.inr (ih _ hf)
      · rw [if_neg hx]
        exact List.mem_cons_of_mem _ (ih _ hf)

/-- C8: an unparsable local `package.json` is treated as an absent manifest —
the deferred resolves to `none` when no `package.json` artifact parses, the
`package.json` artifact (like every non-js artifact) still passes through
unchanged, no error output is produced, and in the two-version instance the
versionless bare import `foo` resolves to the CDN's `latest` (`2.0.0`),
exactly as it does when the project has no manifest at all. -/
theorem invalid_package_json_treated_absent :
    (∀ (parseJson : String → Option PackageJson) (inputs : List InputFile),
       (∀ f ∈ inputs, f.name = "package.json" → parseJson f.content = none) →
       firstResolvedPackageJson parseJson (inputs.map fun f => (f.name, f.content)) = none)
    ∧ (∀ (env : Env) (lexer : String → List SpecInfo) (inputs : List InputFile) (st : CdnState)
         (f : InputFile), f ∈ inputs → isJsFile f.name = false →
         BuildOutput.file f.name f.content f.contentType ∈ (processModel env lexer inputs st).1)
    ∧ (processModel fooTwoEnv importFooLexer
        [⟨"index.js", "import \"foo\";", none⟩, ⟨"package.json", "INVALID JSON", none⟩] {}).1
      = [.file "index.js" "import \"./node_modules/foo@2.0.0/index.js\";" none,
         .file "package.json" "INVALID JSON" none]
    ∧ (processModel fooTwoEnv importFooLexer [⟨"index.js", "import \"foo\";", none⟩] {}).1
      = [.file "index.js" "import \"./node_modules/foo@2.0.0/index.js\";" none] := by
  refine ⟨?_, ?_, by decide, by decide⟩
  · intro parseJson inputs h
    induction inputs with
    | nil => rfl
    | cons x rest ih =>
      unfold firstResolvedPackageJson
      simp only [List.map_cons]
      by_cases hx : x.name = "package.json"
      · rw [if_pos hx, h x (List.mem_cons_self x rest) hx]
        exact ih (fun f hf => h f (List.mem_cons_of_mem x hf))
      · rw [if_neg hx]
        exact ih (fun f hf => h f (List.mem_cons_of_mem x hf))
  · intro env lexer inputs st f hf hjs
    exact processFiles_passthrough env lexer _ st inputs f hf hjs

/-- Witness for C8, instantiating the quantified conjuncts at the invalid
manifest instance. -/
theorem invalid_package_json_treated_absent_witness :
    firstResolvedPackageJson instParseJson
        [("index.js", "import \"foo\";"), ("package.json", "INVALID JSON")] = none ∧
    BuildOutput.file "package.json" "INVALID JSON" none ∈
      (processModel fooTwoEnv importFooLexer
        [⟨"index.js", "import \"foo\";", none⟩, ⟨"package.json", "INVALID JSON", none⟩] {}).1 := by
  constructor
  · exact invalid_package_json_treated_absent.1 instParseJson
      [⟨"index.js", "import \"foo\";", none⟩, ⟨"package.json", "INVALID JSON", none⟩]
      (by intro f hf h; fin_cases hf <;> simp_all; decide)
  · exact invalid_package_json_treated_absent.2.1 fooTwoEnv importFooLexer
      [⟨"index.js", "import \"foo\";", none⟩, ⟨"package.json", "INVALID JSON", none⟩] {}
      ⟨"package.json", "INVALID JSON", none⟩ (by simp) (by decide)

def withMoreRequests {α : Type} (reqs : List String) (o : FetchOutcome α) : FetchOutcome α :=
  ⟨o.result, o.state, reqs ++ o.requests⟩

/-- C2: version and main-entry resolution of a bare specifier. A specifier
with no version resolves exactly as the same specifier carrying the version
declared for its package in the nearest enclosing `package.json` — `latest`
when there is no entry or no manifest. A specifier with no path resolves, from
the state after fetching the package's own `package.json`, exactly as the same
specifier carrying the discovered main-entry path — the manifest's `module`
field, else `main`, else `index.js`. In the two-version instance, with a local
manifest declaring `foo: ^1.0.0` and the CDN hosting `1.0.0` and `2.0.0`,
bare `foo` resolves to `1.0.0` (while without a manifest it resolves to
`latest` = `2.0.0`). -/
theorem bare_specifier_version_and_main_resolution :
    (∀ (pj : Option PackageJson) (pkg rng : String),
       (((pj.map (·.dependencies)).getD []).lookup pkg = some rng → declaredVersion pj pkg = rng)
       ∧ (((pj.map (·.dependencies)).getD []).lookup pkg = none → declaredVersion pj pkg = "latest"))
    ∧ (∀ (env : Env) (pj : Option PackageJson) (spec spec2 referrer : String) (st : CdnState)
         (pkg path : String),
       parseNpmStyleSpecifier spec = some ⟨pkg, "", path⟩ →
       parseNpmStyleSpecifier spec2 = some ⟨pkg, declaredVersion pj pkg, path⟩ →
       declaredVersion pj pkg ≠ "" →
       transformBareSpecifier env pj spec referrer st
         = transformBareSpecifier env pj spec2 referrer st)
    ∧ (∀ (pjson : PackageJson),
       (∀ m, pjson.module = some m → mainEntryPath pjson = m)
       ∧ (pjson.module = none → ∀ m, pjson.main = some m → mainEntryPath pjson = m)
       ∧ (pjson.module = none → pjson.main = none → mainEntryPath pjson = "index.js"))
    ∧ (∀ (env : Env) (pj : Option PackageJson) (spec spec2 referrer : String) (st st2 : CdnState)
         (pkg v : String) (pjson : PackageJson) (reqs2 : List String),
       parseNpmStyleSpecifier spec = some ⟨pkg, v, ""⟩ → v ≠ "" →
       fetchPackageJson env.cdnBaseUrl env.net env.parseJson st pkg v = ⟨.ok pjson, st2, reqs2⟩ →
       parseNpmStyleSpecifier spec2 = some ⟨pkg, v, mainEntryPath pjson⟩ →
       mainEntryPath pjson ≠ "" →
       transformBareSpecifier env pj spec referrer st
         = withMoreRequests reqs2 (transformBareSpecifier env pj spec2 referrer st2))
    ∧ (transformBareSpecifier fooTwoEnv (some { dependencies := [("foo", "^1.0.0")] })
        "foo" "index.js" {}).result
      = .ok ("./node_modules/foo@1.0.0/index.js", [⟨"foo", "1.0.0", "index.js"⟩])
    ∧ (transformBareSpecifier fooTwoEnv none "foo" "index.js" {}).result
      = .ok ("./node_modules/foo@2.0.0/index.js", [⟨"foo", "2.0.0", "index.js"⟩]) := by
  refine ⟨?_, ?_, ?_, ?_, by decide, by decide⟩
  · intro pj pkg rng
    constructor
    · intro h
      unfold declaredVersion
      rw [h]
      rfl
    · intro h
      unfold declaredVersion
      rw [h]
      rfl
  · intro env pj spec spec2 referrer st pkg path h1 h2 hv
    unfold transformBareSpecifier
    rw [h1, h2]
    simp [hv]
  · intro pjson
    refine ⟨?_, ?_, ?_⟩
    · intro m h
      unfold mainEntryPath
      rw [h]
      rfl
    · intro h m h2
      unfold mainEntryPath
      rw [h, h2]
      rfl
    · intro h h2
      unfold mainEntryPath
      rw [h, h2]
      rfl
  · intro env pj spec spec2 referrer st st2 pkg v pjson reqs2 h1 hv hfetch h2 hpath
    rcases hC : canonicalize env.cdnBaseUrl env.net st2 ⟨pkg, v, mainEntryPath pjson⟩
      with ⟨resC, stC, rC⟩
    unfold transformBareSpecifier
    rw [h1, h2]
    simp only [if_neg hv, if_neg hpath, eq_self_iff_true, if_true]
    rw [hfetch]
    by_cases hcond : needsCanonicalize ⟨pkg, v, mainEntryPath pjson⟩ = true
    · simp only [hcond, if_true, hC]
      cases resC <;> simp [withMoreRequests]
    · simp only [Bool.not_eq_true] at hcond
      simp only [hcond, Bool.false_eq_true, if_false]
      simp [withMoreRequests]

/-- Witness for C2, instantiating the quantified conjuncts at the
`foo`/`^1.0.0` instance. -/
theorem bare_specifier_version_and_main_resolution_witness :
    declaredVersion (some { dependencies := [("foo", "^1.0.0")] }) "foo" = "^1.0.0" ∧
    declaredVersion none "foo" = "latest" ∧
    transformBareSpecifier fooTwoEnv (some { dependencies := [("foo", "^1.0.0")] })
        "foo" "index.js" {}
      = transformBareSpecifier fooTwoEnv (some { dependencies := [("foo", "^1.0.0")] })
        "foo@^1.0.0" "index.js" {} ∧
    mainEntryPath { main := some "lib/main.js" } = "lib/main.js" := by
  refine ⟨?_, ?_, ?_, ?_⟩
  · exact (bare_specifier_version_and_main_resolution.1
      (some { dependencies := [("foo", "^1.0.0")] }) "foo" "^1.0.0").1 (by decide)
  · exact (bare_specifier_version_and_main_resolution.1 none "foo" "x").2 (by decide)
  · exact bare_specifier_version_and_main_resolution.2.1 fooTwoEnv
      (some { dependencies := [("foo", "^1.0.0")] }) "foo" "foo@^1.0.0" "index.js" {} "foo" ""
      (by decide) (by decide) (by decide)
  · exact (bare_specifier_version_and_main_resolution.2.2.1
      { main := some "lib/main.js" }).2.1 (by decide) "lib/main.js" (by decide)

/-- A network hosting only `foo@1.0.0/type.d.ts` (for the relative-crawl
instance). -/
def c9Net : Network := fun url =>
  if url = "https://unpkg.com/foo@1.0.0/type.d.ts" then ⟨200, url, "DTS-TYPE", "text/plain"⟩
  else ⟨404, url, "Not Found", "text/plain"⟩

def c9Env : Env := ⟨unpkgBase, c9Net, fun _ => none⟩

def emptyScan : Scanner := fun _ => ([], [])

/-- C9 (counterexample): a relative crawl `./type.js` from inside
`foo@1.0.0/index.d.ts` fetches the sibling `type.d.ts` within the same package
and version — but the dependency graph does gain an entry: the self edge
`foo@1.0.0 → foo@1.0.0` recorded by `_fetchAndAddToOutputFiles`'s
unconditional `_addDependency(referrerSpecifier, location)`. -/
theorem relative_crawl_records_self_edge :
    tfHandleRelativeSpecifier c9Env emptyScan 2 {} "./type.js"
        ⟨"foo", "1.0.0", "index.d.ts"⟩ none
      = .ok
          ⟨["foo/type.d.ts"],
           [("foo@1.0.0/type.d.ts", .ok "DTS-TYPE")],
           [],
           [("foo", [("1.0.0", [("foo", "1.0.0")])])],
           ⟨[], [("foo@1.0.0/type.d.ts", "https://unpkg.com/foo@1.0.0/type.d.ts",
                  ⟨"DTS-TYPE", "text/plain"⟩)]⟩⟩
    ∧ [("foo", [("1.0.0", [("foo", "1.0.0")])])]
        ≠ ([] : List (String × List (String × List (String × String)))) := by
  exact ⟨by decide, by decide⟩

/-- C9 (amended): a relative specifier crawled inside a fetched declaration
file resolves and fetches the sibling declaration path within the referrer's
own package and version, leaves the root-dependency map untouched, and records
a self edge `referrer.pkg@version → referrer.pkg@version` in the dependency
graph (rather than no edge at all): for canonical locations,
`_fetchAndAddToOutputFiles` on a fresh specifier always records the edge
`referrer → location` before fetching. -/
theorem relative_crawl_fetches_sibling_and_records_self_edge :
    (∀ (env : Env) (st : TFState) (loc referrer : NpmFileLocation),
       isExactVersion loc.version = true → fileExtension loc.path ≠ "" →
       isExactVersion referrer.version = true → fileExtension referrer.path ≠ "" →
       st.specifierToFetchResult.lookup (loc.pkg ++ "@" ++ loc.version ++ "/" ++ loc.path) = none →
       (fetchAndAddToOutputFiles env st loc (some referrer)).2.rootDependencies
           = st.rootDependencies
       ∧ (((((fetchAndAddToOutputFiles env st loc (some referrer)).2.dependencyGraph.lookup
              referrer.pkg).getD []).lookup referrer.version).getD []).lookup loc.pkg
           = some loc.version)
    ∧ tfHandleRelativeSpecifier c9Env emptyScan 2 {} "./type.js"
        ⟨"foo", "1.0.0", "index.d.ts"⟩ none
      = .ok
          ⟨["foo/type.d.ts"],
           [("foo@1.0.0/type.d.ts", .ok "DTS-TYPE")],
           [],
           [("foo", [("1.0.0", [("foo", "1.0.0")])])],
           ⟨[], [("foo@1.0.0/type.d.ts", "https://unpkg.com/foo@1.0.0/type.d.ts",
                  ⟨"DTS-TYPE", "text/plain"⟩)]⟩⟩ := by
  constructor
  · intro env st loc referrer hlv hlp hrv hrp hfresh
    unfold fetchAndAddToOutputFiles
    rw [canonicalize_exact_ext env.cdnBaseUrl env.net st.cdn loc hlv hlp]
    simp only
    rw [canonicalize_exact_ext env.cdnBaseUrl env.net st.cdn referrer hrv hrp]
    simp only
    rw [hfresh]
    rcases hF : cdnFetch env.cdnBaseUrl env.net st.cdn loc with ⟨resF, cdnF, reqsF⟩
    cases resF <;>
      simp [hF, addDependency, List.lookup]
  · decide

/-- Witness for the amended C9, instantiating the general conjunct at the
`foo@1.0.0` sibling fetch. -/
theorem relative_crawl_fetches_sibling_witness :
    (fetchAndAddToOutputFiles c9Env
        (TFState.mk ["foo/type.d.ts"] [] [] [] {})
        ⟨"foo", "1.0.0", "type.d.ts"⟩ (some ⟨"foo", "1.0.0", "index.d.ts"⟩)).2.rootDependencies
      = [] ∧
    ((((((fetchAndAddToOutputFiles c9Env
        (TFState.mk ["foo/type.d.ts"] [] [] [] {})
        ⟨"foo", "1.0.0", "type.d.ts"⟩
        (some ⟨"foo", "1.0.0", "index.d.ts"⟩)).2.dependencyGraph.lookup
        "foo").getD []).lookup "1.0.0").getD []).lookup "foo") = some "1.0.0" :=
  relative_crawl_fetches_sibling_and_records_self_edge.1 c9Env
    (TFState.mk ["foo/type.d.ts"] [] [] [] {})
    ⟨"foo", "1.0.0", "type.d.ts"⟩ ⟨"foo", "1.0.0", "index.d.ts"⟩
    (by decide) (by decide) (by decide) (by decide) (by decide)

/-- No function of the `TypesFetcher` crawl ever rejects: every throwing await
sits inside a `try { .. } catch { return }` of one of the handlers. -/
theorem tf_crawl_never_errors (fuel : Nat) :
    (∀ (env : Env) (scan : Scanner) (st : TFState) (bare : String)
       (referrer : Option NpmFileLocation) (gpj : Option PackageJson),
       ∃ st', tfHandleBareSpecifier env scan fuel st bare referrer gpj = .ok st')
    ∧ (∀ (env : Env) (scan : Scanner) (st : TFState) (npm : NpmFileLocation) (dtsPath : String)
         (referrer : Option NpmFileLocation),
       ∃ st', tfHandleBareTail env scan fuel st npm dtsPath referrer = .ok st')
    ∧ (∀ (env : Env) (scan : Scanner) (st : TFState) (relative : String)
         (referrer : NpmFileLocation) (gpj : Option PackageJson),
       ∃ st', tfHandleRelativeSpecifier env scan fuel st relative referrer gpj = .ok st')
    ∧ (∀ (env : Env) (scan : Scanner) (st : TFState) (specs : List String)
         (referrer : NpmFileLocation) (gpj : Option PackageJson),
       ∃ st', tfHandleImportList env scan fuel st specs referrer gpj = .ok st')
    ∧ (∀ (env : Env) (scan : Scanner) (st : TFState) (libs : List String)
         (gpj : Option PackageJson),
       ∃ st', tfHandleLibList env scan fuel st libs gpj = .ok st')
    ∧ (∀ (env : Env) (scan : Scanner) (st : TFState) (text : String)
         (referrer : NpmFileLocation) (gpj : Option PackageJson),
       ∃ st', tfHandleBareAndRelativeSpecifiers env scan fuel st text referrer gpj = .ok st') := by
  induction fuel with
  | zero =>
    refine ⟨?_, ?_, ?_, ?_, ?_, ?_⟩
    · intro env scan st bare referrer gpj
      exact ⟨st, by simp [tfHandleBareSpecifier]⟩
    · intro env scan st npm dtsPath referrer
      exact ⟨st, by simp [tfHandleBareTail]⟩
    · intro env scan st relative referrer gpj
      exact ⟨st, by simp [tfHandleRelativeSpecifier]⟩
    · intro env scan st specs referrer gpj
      exact ⟨st, by simp [tfHandleImportList]⟩
    · intro env scan st libs gpj
      exact ⟨st, by simp [tfHandleLibList]⟩
    · intro env scan st text referrer gpj
      exact ⟨st, by simp [tfHandleBareAndRelativeSpecifiers]⟩
  | succ n ih =>
    obtain ⟨ihB, ihT, ihR, ihI, ihL, ihS⟩ := ih
    have hT : ∀ (env : Env) (scan : Scanner) (st : TFState) (npm : NpmFileLocation)
        (dtsPath : String) (referrer : Option NpmFileLocation),
        ∃ st', tfHandleBareTail env scan (n + 1) st npm dtsPath referrer = .ok st' := by
      intro env scan st npm dtsPath referrer
      simp only [tfHandleBareTail]
      repeat' split
      all_goals first
        | exact ⟨_, rfl⟩
        | exact ihS _ _ _ _ _ _
    have hB : ∀ (env : Env) (scan : Scanner) (st : TFState) (bare : String)
        (referrer : Option NpmFileLocation) (gpj : Option PackageJson),
        ∃ st', tfHandleBareSpecifier env scan (n + 1) st bare referrer gpj = .ok st' := by
      intro env scan st bare referrer gpj
      rcases hp : parseNpmStyleSpecifier bare with _ | npm0
      · exact ⟨st, by simp [tfHandleBareSpecifier, hp]⟩
      · simp only [tfHandleBareSpecifier, hp]
        repeat' split
        all_goals first
          | exact ⟨_, rfl⟩
          | exact ihT _ _ _ _ _ _
    have hR : ∀ (env : Env) (scan : Scanner) (st : TFState) (relative : String)
        (referrer : NpmFileLocation) (gpj : Option PackageJson),
        ∃ st', tfHandleRelativeSpecifier env scan (n + 1) st relative referrer gpj = .ok st' := by
      intro env scan st relative referrer gpj
      simp only [tfHandleRelativeSpecifier]
      repeat' split
      all_goals first
        | exact ⟨_, rfl⟩
        | exact ihS _ _ _ _ _ _
    have hI : ∀ (env : Env) (scan : Scanner) (st : TFState) (specs : List String)
        (referrer : NpmFileLocation) (gpj : Option PackageJson),
        ∃ st', tfHandleImportList env scan (n + 1) st specs referrer gpj = .ok st' := by
      intro env scan st specs referrer gpj
      match specs with
      | [] => exact ⟨st, by simp [tfHandleImportList]⟩
      | spec :: rest =>
        simp only [tfHandleImportList]
        rcases hhead : (match classifySpecifier spec with
          | .bare => tfHandleBareSpecifier env scan n st spec (some referrer) gpj
          | .relative => tfHandleRelativeSpecifier env scan n st spec referrer gpj
          | .url => .ok st) with e | st1
        · exfalso
          rcases hcl : classifySpecifier spec <;> rw [hcl] at hhead
          · simp at hhead
          · obtain ⟨s', hs'⟩ := ihB env scan st spec (some referrer) gpj
            rw [hs'] at hhead
            cases hhead
          · obtain ⟨s', hs'⟩ := ihR env scan st spec referrer gpj
            rw [hs'] at hhead
            cases hhead
        · rw [hhead]
          exact ihI _ _ _ _ _ _
    have hL : ∀ (env : Env) (scan : Scanner) (st : TFState) (libs : List String)
        (gpj : Option PackageJson),
        ∃ st', tfHandleLibList env scan (n + 1) st libs gpj = .ok st' := by
      intro env scan st libs gpj
      match libs with
      | [] => exact ⟨st, by simp [tfHandleLibList]⟩
      | lib :: rest =>
        simp only [tfHandleLibList]
        obtain ⟨s', hs'⟩ := ihB env scan st ("typescript/lib/lib." ++ lib.toLower ++ ".js") none gpj
        rw [hs']
        exact ihL _ _ _ _ _
    have hS : ∀ (env : Env) (scan : Scanner) (st : TFState) (text : String)
        (referrer : NpmFileLocation) (gpj : Option PackageJson),
        ∃ st', tfHandleBareAndRelativeSpecifiers env scan (n + 1) st text referrer gpj = .ok st' := by
      intro env scan st text referrer gpj
      simp only [tfHandleBareAndRelativeSpecifiers]
      obtain ⟨s', hs'⟩ := ihI env scan st (scan text).1 referrer gpj
      rw [hs']
      exact ihL _ _ _ _ _
    exact ⟨hB, hT, hR, hI, hL, hS⟩

/-- Every `(path, content)` in a `filesByPv` bucket comes from a non-error
entry of the specifier-to-result map. -/
theorem filesByPv_ok_source (m : List (String × FetchResult)) :
    ∀ (pv p c : String), (p, c) ∈ ((filesByPvOf m).lookup pv).getD [] →
    ∃ spec, (spec, (Except.ok c : FetchResult)) ∈ m := by
  induction m with
  | nil =>
    intro pv p c h
    simp [filesByPvOf] at h
  | cons x rest ih =>
    intro pv p c h
    obtain ⟨xs, xres⟩ := x
    rcases xres with n | content
    · rw [show filesByPvOf ((xs, Except.error n) :: rest) = filesByPvOf rest from by
        simp [filesByPvOf]] at h
      obtain ⟨spec, hs⟩ := ih pv p c h
      exact ⟨spec, List.mem_cons_of_mem _ hs⟩
    · rcases hparse : parseNpmStyleSpecifier xs with _ | loc
      · rw [show filesByPvOf ((xs, Except.ok content) :: rest) = filesByPvOf rest from by
          simp [filesByPvOf, hparse]] at h
        obtain ⟨spec, hs⟩ := ih pv p c h
        exact ⟨spec, List.mem_cons_of_mem _ hs⟩
      · rcases hacc : (filesByPvOf rest).lookup (loc.pkg ++ "@" ++ loc.version) with _ | files
        · rw [show filesByPvOf ((xs, Except.ok content) :: rest)
              = (loc.pkg ++ "@" ++ loc.version, [(loc.path, content)]) :: filesByPvOf rest from by
            simp [filesByPvOf, hparse, hacc]] at h
          by_cases hpv : loc.pkg ++ "@" ++ loc.version = pv
          · subst hpv
            simp only [List.lookup_cons, beq_self_eq_true, Option.getD_some,
              List.mem_singleton, Prod.mk.injEq] at h
            refine ⟨xs, ?_⟩
            rw [h.2]
            exact List.mem_cons_self _ _
          · have hb : (pv == loc.pkg ++ "@" ++ loc.version) = false :=
              beq_eq_false_iff_ne.mpr (fun hx => hpv hx.symm)
            simp only [List.lookup_cons, hb] at h
            obtain ⟨spec, hs⟩ := ih pv p c h
            exact ⟨spec, List.mem_cons_of_mem _ hs⟩
        · rw [show filesByPvOf ((xs, Except.ok content) :: rest)
              = (loc.pkg ++ "@" ++ loc.version, (loc.path, content) :: files) :: filesByPvOf rest
              from by simp [filesByPvOf, hparse, hacc]] at h
          by_cases hpv : loc.pkg ++ "@" ++ loc.version = pv
          · subst hpv
            simp only [List.lookup_cons, beq_self_eq_true, Option.getD_some] at h
            rcases List.mem_cons.mp h with hh | hh
            · refine ⟨xs, ?_⟩
              rw [((Prod.mk.injEq _ _ _ _).mp hh).2]
              exact List.mem_cons_self _ _
            · have hmem : (p, c) ∈ ((filesByPvOf rest).lookup
                  (loc.pkg ++ "@" ++ loc.version)).getD [] := by
                rw [hacc]
                exact hh
              obtain ⟨spec, hs⟩ := ih _ p c hmem
              exact ⟨spec, List.mem_cons_of_mem _ hs⟩
          · have hb : (pv == loc.pkg ++ "@" ++ loc.version) = false :=
              beq_eq_false_iff_ne.mpr (fun hx => hpv hx.symm)
            simp only [List.lookup_cons, hb] at h
            obtain ⟨spec, hs⟩ := ih pv p c h
            exact ⟨spec, List.mem_cons_of_mem _ hs⟩

/-- Every `(path, content)` pair emitted by `_buildFiles` takes its content
from some `filesByPv` bucket. -/
theorem buildFiles_values (fb : List (String × List (String × String))) :
    ∀ (pfx : String) (dir : NMDir) (p c : String),
      (p, c) ∈ buildFilesDir fb pfx dir →
      ∃ pv path, (path, c) ∈ (fb.lookup pv).getD [] := by
  refine buildFilesDir.induct fb
    (fun pfx dir => ∀ p c, (p, c) ∈ buildFilesDir fb pfx dir →
      ∃ pv path, (path, c) ∈ (fb.lookup pv).getD [])
    (fun pfx2 entries => ∀ p c, (p, c) ∈ buildFilesEntries fb pfx2 entries →
      ∃ pv path, (path, c) ∈ (fb.lookup pv).getD [])
    ?_ ?_ ?_
  · intro pfx entries ih p c h
    rw [show buildFilesDir fb pfx (.mk entries)
        = buildFilesEntries fb (if pfx = "" then "" else pfx ++ "/") entries from by
      simp [buildFilesDir]] at h
    exact ih p c h
  · intro pfx2 p c h
    simp [buildFilesEntries] at h
  · intro pfx2 pkg version nested rest ih1 ih2 p c h
    rw [show buildFilesEntries fb pfx2 ((pkg, version, nested) :: rest)
        = ((fb.lookup (pkg ++ "@" ++ version)).getD []).map
            (fun f => (pfx2 ++ pkg ++ "/" ++ f.1, f.2))
          ++ buildFilesDir fb (pfx2 ++ pkg ++ "/node_modules") nested
          ++ buildFilesEntries fb pfx2 rest from by simp [buildFilesEntries]] at h
    rcases List.mem_append.mp h with h | h
    · rcases List.mem_append.mp h with h | h
      · obtain ⟨f, hf, he⟩ := List.mem_map.mp h
        refine ⟨pkg ++ "@" ++ version, f.1, ?_⟩
        have : f.2 = c := congrArg Prod.snd he
        rw [← this]
        exact hf
      · exact ih1 p c h
    · exact ih2 p c h

theorem tfHandleEntryBares_never_errors (env : Env) (scan : Scanner) (fuel : Nat)
    (gpj : Option PackageJson) :
    ∀ (bares : List String) (st : TFState),
      ∃ st', tfHandleEntryBares env scan fuel gpj bares st = .ok st' := by
  intro bares
  induction bares with
  | nil =>
    intro st
    exact ⟨st, rfl⟩
  | cons b rest ih =>
    intro st
    obtain ⟨s1, h1⟩ := (tf_crawl_never_errors fuel).1 env scan st b none gpj
    simp only [tfHandleEntryBares, h1]
    exact ih s1

/-- C10: the `TypesFetcher` session machinery is total and error-tolerant —
`addBareModuleTypings` never rejects (every throwing await of the crawl is
caught by one of the handlers); a specifier whose CDN fetch throws is recorded
in the specifier-to-result map as `.error 404` (while still completing
normally); and every `(path, content)` pair `getFiles` returns is traceable to
a non-error map entry, so errored specifiers are silently omitted — no
diagnostic and no exception reaches the caller. -/
theorem types_fetcher_total_and_errors_omitted :
    (∀ (env : Env) (scan : Scanner) (fuel : Nat) (st : TFState) (sourceText : String)
       (gpj : Option PackageJson),
       ∃ st', tfAddBareModuleTypings env scan fuel st sourceText gpj = .ok st')
    ∧ (∀ (env : Env) (st : TFState) (loc : NpmFileLocation) (e : String)
         (cdn' : CdnState) (reqs : List String),
       isExactVersion loc.version = true → fileExtension loc.path ≠ "" →
       st.specifierToFetchResult.lookup (loc.pkg ++ "@" ++ loc.version ++ "/" ++ loc.path) = none →
       cdnFetch env.cdnBaseUrl env.net st.cdn loc = ⟨.error e, cdn', reqs⟩ →
       fetchAndAddToOutputFiles env st loc none
         = (.ok (.error 404),
            {st with
               rootDependencies := (loc.pkg, loc.version) :: st.rootDependencies,
               specifierToFetchResult := st.specifierToFetchResult
                 ++ [(loc.pkg ++ "@" ++ loc.version ++ "/" ++ loc.path, .error 404)],
               cdn := cdn'}))
    ∧ (∀ (st : TFState) (fuel : Nat) (p c : String),
       (p, c) ∈ getFilesModel st fuel →
       ∃ spec, (spec, (Except.ok c : FetchResult)) ∈ st.specifierToFetchResult) := by
  refine ⟨?_, ?_, ?_⟩
  · intro env scan fuel st sourceText gpj
    obtain ⟨s1, h1⟩ := tfHandleEntryBares_never_errors env scan fuel gpj
      ((scan sourceText).1.filter (fun s => classifySpecifier s = .bare)) st
    obtain ⟨s2, h2⟩ := (tf_crawl_never_errors fuel).2.2.2.2.1 env scan s1 (scan sourceText).2 gpj
    refine ⟨s2, ?_⟩
    simp only [tfAddBareModuleTypings, h1, h2]
  · intro env st loc e cdn' reqs hlv hlp hfresh hfetch
    unfold fetchAndAddToOutputFiles
    rw [canonicalize_exact_ext env.cdnBaseUrl env.net st.cdn loc hlv hlp]
    simp only
    rw [hfresh]
    simp only [addDependency, Option.map_none']
    rw [hfetch]
  · intro st fuel p c h
    unfold getFilesModel at h
    obtain ⟨pv, path, hmem⟩ := buildFiles_values (filesByPvOf st.specifierToFetchResult) "" _ p c h
    exact filesByPv_ok_source st.specifierToFetchResult pv path c hmem

/-- Witness for C10: a session over a CDN hosting only `foo@1.0.0/type.d.ts`
completes; a 404 fetch of `bar@1.0.0/index.d.ts` is recorded as `.error 404`;
and a concrete `getFiles` output value traces back to its `.ok` map entry. -/
theorem types_fetcher_total_and_errors_omitted_witness :
    (∃ st', tfAddBareModuleTypings c9Env emptyScan 3 {} "ENTRY" none = .ok st')
    ∧ fetchAndAddToOutputFiles c9Env {} ⟨"bar", "1.0.0", "index.d.ts"⟩ none
        = (.ok (.error 404),
           ⟨[], [("bar@1.0.0/index.d.ts", .error 404)], [("bar", "1.0.0")], [], {}⟩)
    ∧ (∃ spec, (spec, (Except.ok "C" : FetchResult)) ∈
        (TFState.mk [] [("foo@1.0.0/a.d.ts", .ok "C")] [("foo", "1.0.0")] [] {}).specifierToFetchResult) := by
  refine ⟨?_, ?_, ?_⟩
  · exact types_fetcher_total_and_errors_omitted.1 c9Env emptyScan 3 {} "ENTRY" none
  · have := types_fetcher_total_and_errors_omitted.2.1 c9Env {} ⟨"bar", "1.0.0", "index.d.ts"⟩
      "Unpkg 404 error: Not Found" {} ["https://unpkg.com/bar@1.0.0/index.d.ts"]
      (by decide) (by decide) (by decide) (by decide)
    rw [this]
    rfl
  · exact types_fetcher_total_and_errors_omitted.2.2
      (TFState.mk [] [("foo@1.0.0/a.d.ts", .ok "C")] [("foo", "1.0.0")] [] {}) 2
      "foo/a.d.ts" "C" (by decide)

/-! Association-list lemmas for the layout development. -/

theorem lookup_mem {α : Type} (k : String) (v : α) (l : List (String × α))
    (h : l.lookup k = some v) : (k, v) ∈ l := by
  induction l with
  | nil => cases h
  | cons x rest ih =>
    obtain ⟨xk, xv⟩ := x
    simp only [List.lookup_cons] at h
    split at h
    · injection h with h2
      subst h2
      rename_i hbk
      have hk : k = xk := eq_of_beq hbk
      subst hk
      exact List.mem_cons_self _ _
    · exact List.mem_cons_of_mem _ (ih h)

theorem lookup_isSome_of_mem_keys {α : Type} (k : String) (l : List (String × α))
    (h : k ∈ l.map Prod.fst) : (l.lookup k).isSome = true := by
  induction l with
  | nil => cases h
  | cons x rest ih =>
    obtain ⟨xk, xv⟩ := x
    simp only [List.map_cons, List.mem_cons] at h
    simp only [List.lookup_cons]
    by_cases hk : (k == xk) = true
    · rw [hk]
      rfl
    · rw [Bool.not_eq_true] at hk
      rw [hk]
      rcases h with rfl | h
      · simp at hk
      · exact ih h

theorem lookup_eq_none_of_not_mem_keys {α : Type} (k : String) (l : List (String × α))
    (h : k ∉ l.map Prod.fst) : l.lookup k = none := by
  rcases hl : l.lookup k with _ | v
  · rfl
  · exact absurd (List.mem_map.mpr ⟨(k, v), lookup_mem k v l hl, rfl⟩) h

theorem lookup_append_of_none {α : Type} (k : String) (a b : List (String × α))
    (h : a.lookup k = none) : (a ++ b).lookup k = b.lookup k := by
  induction a with
  | nil => rfl
  | cons x rest ih =>
    obtain ⟨xk, xv⟩ := x
    simp only [List.lookup_cons] at h
    rw [show (xk, xv) :: rest ++ b = (xk, xv) :: (rest ++ b) from rfl, List.lookup_cons]
    split at h
    · cases h
    · exact ih h

theorem lookup_of_mem_nodup {α : Type} (k : String) (v : α) (l : List (String × α))
    (hmem : (k, v) ∈ l) (hnd : (l.map Prod.fst).Nodup) : l.lookup k = some v := by
  induction l with
  | nil => cases hmem
  | cons x rest ih =>
    obtain ⟨xk, xv⟩ := x
    simp only [List.map_cons, List.nodup_cons] at hnd
    rcases List.mem_cons.mp hmem with heq | hmem2
    · injection heq with h1 h2
      subst h1; subst h2
      simp [List.lookup_cons]
    · simp only [List.lookup_cons]
      have hne : (k == xk) = false := by
        apply beq_eq_false_iff_ne.mpr
        intro hkk
        subst hkk
        exact hnd.1 (List.mem_map.mpr ⟨(k, v), hmem2, rfl⟩)
      rw [hne]
      exact ih hmem2 hnd.2

theorem mem_dedupKeysAux {α : Type} (x : String × α) :
    ∀ (l : List (String × α)) (seen : List String), x ∈ dedupKeysAux seen l → x ∈ l := by
  intro l
  induction l with
  | nil =>
    intro seen h
    cases h
  | cons y rest ih =>
    intro seen h
    obtain ⟨yk, yv⟩ := y
    simp only [dedupKeysAux] at h
    split at h
    · exact List.mem_cons_of_mem _ (ih _ h)
    · rcases List.mem_cons.mp h with rfl | h2
      · exact List.mem_cons_self _ _
      · exact List.mem_cons_of_mem _ (ih _ h2)

theorem dedupKeysAux_keys_nodup {α : Type} :
    ∀ (l : List (String × α)) (seen : List String),
      ((dedupKeysAux seen l).map Prod.fst).Nodup
      ∧ ∀ k ∈ (dedupKeysAux seen l).map Prod.fst, k ∉ seen := by
  intro l
  induction l with
  | nil =>
    intro seen
    exact ⟨List.nodup_nil, by simp [dedupKeysAux]⟩
  | cons y rest ih =>
    intro seen
    obtain ⟨yk, yv⟩ := y
    simp only [dedupKeysAux]
    split
    · exact ih seen
    · rename_i hyk
      refine ⟨?_, ?_⟩
      · simp only [List.map_cons, List.nodup_cons]
        exact ⟨fun hmem => ((ih (yk :: seen)).2 yk hmem) (List.mem_cons_self _ _),
               (ih (yk :: seen)).1⟩
      · intro k hk
        simp only [List.map_cons, List.mem_cons] at hk
        rcases hk with rfl | hk
        · exact hyk
        · exact fun hks => (ih (yk :: seen)).2 k hk (List.mem_cons_of_mem _ hks)

theorem graphDeps_mem_edges (graph : List (String × List (String × List (String × String))))
    (p v : String) (d : String × String) (h : d ∈ graphDeps graph p v) :
    ∃ pvs deps, (p, pvs) ∈ graph ∧ (v, deps) ∈ pvs ∧ d ∈ deps := by
  unfold graphDeps dedupKeys at h
  have h2 := mem_dedupKeysAux d _ [] h
  rcases hg : graph.lookup p with _ | pvs
  · rw [hg] at h2
    simp at h2
  · rw [hg] at h2
    simp only [Option.getD_some] at h2
    rcases hv : pvs.lookup v with _ | deps
    · rw [hv] at h2
      simp at h2
    · rw [hv] at h2
      simp only [Option.getD_some] at h2
      exact ⟨pvs, deps, lookup_mem p pvs graph hg, lookup_mem v deps pvs hv, h2⟩

/-! Invariants of the layout passes. -/

theorem hoistTop_extends (graph : List (String × List (String × List (String × String)))) :
    ∀ (fuel : Nat) (top queue : List (String × String)),
      ∃ ext, hoistTop graph fuel top queue = top ++ ext := by
  intro fuel
  induction fuel with
  | zero =>
    intro top queue
    exact ⟨[], by simp [hoistTop]⟩
  | succ n ih =>
    intro top queue
    match queue with
    | [] => exact ⟨[], by simp [hoistTop]⟩
    | (p, v) :: qrest =>
      simp only [hoistTop]
      obtain ⟨ext, hext⟩ :=
        ih (top ++ (graphDeps graph p v).filter (fun d => (top.lookup d.1).isNone))
           (qrest ++ (graphDeps graph p v).filter (fun d => (top.lookup d.1).isNone))
      rw [hext, List.append_assoc]
      exact ⟨_, rfl⟩

theorem hoistTop_invariant (graph : List (String × List (String × List (String × String))))
    (D dv : String)
    (hedges : ∀ (p v v' : String) (pvs : List (String × List (String × String)))
      (deps : List (String × String)),
      (p, pvs) ∈ graph → (v, deps) ∈ pvs → (D, v') ∈ deps → v' = dv) :
    ∀ (fuel : Nat) (top queue : List (String × String)),
      (top.map Prod.fst).Nodup → (∀ v', (D, v') ∈ top → v' = dv) →
      ((hoistTop graph fuel top queue).map Prod.fst).Nodup
      ∧ ∀ v', (D, v') ∈ hoistTop graph fuel top queue → v' = dv := by
  intro fuel
  induction fuel with
  | zero =>
    intro top queue h1 h2
    exact ⟨h1, h2⟩
  | succ n ih =>
    intro top queue h1 h2
    match queue with
    | [] => exact ⟨h1, h2⟩
    | (p, v) :: qrest =>
      simp only [hoistTop]
      apply ih
      · rw [List.map_append, List.nodup_append]
        refine ⟨h1, ?_, ?_⟩
        · have hsub : ((graphDeps graph p v).filter
              (fun d => (top.lookup d.1).isNone)).Sublist (graphDeps graph p v) :=
            List.filter_sublist _
          exact (hsub.map Prod.fst).nodup
            (dedupKeysAux_keys_nodup ((((graph.lookup p).getD []).lookup v).getD []) []).1
        · intro k hk1 hk2
          obtain ⟨d, hd, rfl⟩ := List.mem_map.mp hk2
          have hnone : top.lookup d.1 = none :=
            Option.isNone_iff_eq_none.mp ((List.mem_filter.mp hd).2)
          have hsome := lookup_isSome_of_mem_keys d.1 top hk1
          rw [hnone] at hsome
          simp at hsome
      · intro v' hv'
        rcases List.mem_append.mp hv' with h | h
        · exact h2 v' h
        · obtain ⟨pvs, deps, hg, hpv, hd⟩ :=
            graphDeps_mem_edges graph p v (D, v') (List.mem_of_mem_filter h)
          exact hedges p v v' pvs deps hg hpv hd

theorem countPkgEntries_map_zero (D : String) (f : String × String → NMDir)
    (l : List (String × String))
    (hk : ∀ d ∈ l, d.1 ≠ D) (hf : ∀ d ∈ l, countPkgDir D (f d) = 0) :
    countPkgEntries D (l.map (fun d => (d.1, d.2, f d))) = 0 := by
  induction l with
  | nil => simp [countPkgEntries]
  | cons d rest ih =>
    simp only [List.map_cons, countPkgEntries]
    rw [if_neg (hk d (List.mem_cons_self _ _)), hf d (List.mem_cons_self _ _),
      ih (fun e he => hk e (List.mem_cons_of_mem _ he))
         (fun e he => hf e (List.mem_cons_of_mem _ he))]

theorem countPkgEntries_map_le_one (D : String) (f : String × String → NMDir)
    (l : List (String × String)) (hnd : (l.map Prod.fst).Nodup)
    (hf : ∀ d ∈ l, countPkgDir D (f d) = 0) :
    countPkgEntries D (l.map (fun d => (d.1, d.2, f d))) ≤ 1 := by
  induction l with
  | nil => simp [countPkgEntries]
  | cons d rest ih =>
    simp only [List.map_cons, List.nodup_cons] at hnd
    simp only [List.map_cons, countPkgEntries]
    rw [hf d (List.mem_cons_self _ _)]
    by_cases hd : d.1 = D
    · rw [if_pos hd]
      have hz : countPkgEntries D (rest.map (fun e => (e.1, e.2, f e))) = 0 := by
        apply countPkgEntries_map_zero
        · intro e he heq
          apply hnd.1
          rw [hd, ← heq]
          exact List.mem_map.mpr ⟨e, he, rfl⟩
        · intro e he
          exact hf e (List.mem_cons_of_mem _ he)
      rw [hz]
    · rw [if_neg hd]
      simpa using ih hnd.2 (fun e he => hf e (List.mem_cons_of_mem _ he))

theorem conflicts_fst_ne (graph : List (String × List (String × List (String × String))))
    (D dv : String)
    (hedges : ∀ (p v v' : String) (pvs : List (String × List (String × String)))
      (deps : List (String × String)),
      (p, pvs) ∈ graph → (v, deps) ∈ pvs → (D, v') ∈ deps → v' = dv)
    (chain : List (String × String)) (p v : String)
    (hchain : ∀ r, chain.lookup D = some r → r = dv) :
    ∀ d ∈ (graphDeps graph p v).filter
      (fun d =>
        match chain.lookup d.1 with
        | some dv' => dv' ≠ d.2
        | none => false),
      d.1 ≠ D := by
  intro d hd heq
  have hcond := List.of_mem_filter hd
  have hmem := List.mem_of_mem_filter hd
  rcases hl : chain.lookup d.1 with _ | r
  · rw [hl] at hcond
    cases hcond
  · rw [hl] at hcond
    have hne : r ≠ d.2 := of_decide_eq_true hcond
    rw [heq] at hl
    have hr : r = dv := hchain r hl
    obtain ⟨pvs, deps, hg, hpv, hdd⟩ := graphDeps_mem_edges graph p v d hmem
    have hdd2 : (d.1, d.2) ∈ deps := by
      rw [Prod.mk.eta]
      exact hdd
    rw [heq] at hdd2
    have hdv : d.2 = dv := hedges p v d.2 pvs deps hg hpv hdd2
    exact hne (by rw [hr, hdv])

theorem nestDir_count_zero (graph : List (String × List (String × List (String × String))))
    (D dv : String)
    (hedges : ∀ (p v v' : String) (pvs : List (String × List (String × String)))
      (deps : List (String × String)),
      (p, pvs) ∈ graph → (v, deps) ∈ pvs → (D, v') ∈ deps → v' = dv) :
    ∀ (fuel : Nat) (chain : List (String × String)) (p v : String),
      (∀ r, chain.lookup D = some r → r = dv) →
      countPkgDir D (nestDir graph fuel chain p v) = 0 := by
  intro fuel
  induction fuel with
  | zero =>
    intro chain p v hchain
    simp [nestDir, countPkgDir, countPkgEntries]
  | succ n ih =>
    intro chain p v hchain
    have hkc := conflicts_fst_ne graph D dv hedges chain p v hchain
    have hnone : ((graphDeps graph p v).filter
        (fun d =>
          match chain.lookup d.1 with
          | some dv' => dv' ≠ d.2
          | none => false)).lookup D = none := by
      apply lookup_eq_none_of_not_mem_keys
      intro hk
      obtain ⟨d, hd, hdh⟩ := List.mem_map.mp hk
      exact hkc d hd hdh
    have hinv : ∀ r, ((graphDeps graph p v).filter
        (fun d =>
          match chain.lookup d.1 with
          | some dv' => dv' ≠ d.2
          | none => false) ++ chain).lookup D = some r → r = dv := by
      intro r hr
      rw [lookup_append_of_none D _ chain hnone] at hr
      exact hchain r hr
    simp only [nestDir, countPkgDir]
    apply countPkgEntries_map_zero
    · exact hkc
    · intro d hd
      exact ih _ _ _ hinv

theorem layoutModel_count_le_one (rootDeps : List (String × String))
    (graph : List (String × List (String × List (String × String))))
    (D dv : String) (fuel : Nat)
    (hroot : ∀ v', (D, v') ∈ dedupKeys rootDeps → v' = dv)
    (hedges : ∀ (p v v' : String) (pvs : List (String × List (String × String)))
      (deps : List (String × String)),
      (p, pvs) ∈ graph → (v, deps) ∈ pvs → (D, v') ∈ deps → v' = dv) :
    countPkgDir D (layoutModel rootDeps graph fuel) ≤ 1 := by
  have hinv := hoistTop_invariant graph D dv hedges fuel (dedupKeys rootDeps)
    (dedupKeys rootDeps) (dedupKeysAux_keys_nodup rootDeps []).1 hroot
  simp only [layoutModel, countPkgDir]
  apply countPkgEntries_map_le_one
  · exact hinv.1
  · intro d hd
    apply nestDir_count_zero graph D dv hedges fuel _ d.1 d.2
    intro r hr
    exact hinv.2 r (lookup_mem D r _ hr)

/-! Placement lemmas: where `_buildFiles` emits the files of a layout entry. -/

theorem buildFilesEntries_mem_here (fb : List (String × List (String × String)))
    (pfx2 pkg version : String) (nested : NMDir)
    (entries : List (String × String × NMDir))
    (hmem : (pkg, version, nested) ∈ entries)
    (path c : String) (hfile : (path, c) ∈ (fb.lookup (pkg ++ "@" ++ version)).getD []) :
    (pfx2 ++ pkg ++ "/" ++ path, c) ∈ buildFilesEntries fb pfx2 entries := by
  induction entries with
  | nil => cases hmem
  | cons e rest ih =>
    obtain ⟨epkg, eversion, enested⟩ := e
    simp only [buildFilesEntries]
    rcases List.mem_cons.mp hmem with heq | hmem2
    · injection heq with h1 hrest
      injection hrest with h2 h3
      subst h1
      subst h2
      exact List.mem_append.mpr (Or.inl (List.mem_append.mpr
        (Or.inl (List.mem_map.mpr ⟨(path, c), hfile, rfl⟩))))
    · exact List.mem_append.mpr (Or.inr (ih hmem2))

theorem buildFilesEntries_mem_nested (fb : List (String × List (String × String)))
    (pfx2 pkg version : String) (nested : NMDir)
    (entries : List (String × String × NMDir))
    (hmem : (pkg, version, nested) ∈ entries) (q c : String)
    (hq : (q, c) ∈ buildFilesDir fb (pfx2 ++ pkg ++ "/node_modules") nested) :
    (q, c) ∈ buildFilesEntries fb pfx2 entries := by
  induction entries with
  | nil => cases hmem
  | cons e rest ih =>
    obtain ⟨epkg, eversion, enested⟩ := e
    simp only [buildFilesEntries]
    rcases List.mem_cons.mp hmem with heq | hmem2
    · injection heq with h1 hrest
      injection hrest with h2 h3
      subst h1
      subst h2
      subst h3
      exact List.mem_append.mpr (Or.inl (List.mem_append.mpr (Or.inr hq)))
    · exact List.mem_append.mpr (Or.inr (ih hmem2))

theorem nestDir_conflict_mem (graph : List (String × List (String × List (String × String))))
    (fuel : Nat) (chain : List (String × String)) (p v D v1 v2 : String)
    (hdep : (D, v2) ∈ graphDeps graph p v)
    (hchain : chain.lookup D = some v1) (hne : v1 ≠ v2) :
    ∃ sub, ((D, v2, sub) : String × String × NMDir) ∈ (nestDir graph (fuel + 1) chain p v).entries := by
  simp only [nestDir, NMDir.entries]
  refine ⟨_, List.mem_map.mpr ⟨(D, v2), ?_, rfl⟩⟩
  apply List.mem_filter.mpr
  refine ⟨hdep, ?_⟩
  show (match chain.lookup (D, v2).1 with
    | some dv' => decide (dv' ≠ (D, v2).2)
    | none => false) = true
  rw [show ((D, v2) : String × String).1 = D from rfl, hchain]
  exact decide_eq_true hne

theorem hoistTop_keys_nodup (graph : List (String × List (String × List (String × String)))) :
    ∀ (fuel : Nat) (top queue : List (String × String)),
      (top.map Prod.fst).Nodup →
      ((hoistTop graph fuel top queue).map Prod.fst).Nodup := by
  intro fuel
  induction fuel with
  | zero =>
    intro top queue h1
    exact h1
  | succ n ih =>
    intro top queue h1
    match queue with
    | [] => exact h1
    | (p, v) :: qrest =>
      simp only [hoistTop]
      apply ih
      rw [List.map_append, List.nodup_append]
      refine ⟨h1, ?_, ?_⟩
      · have hsub : ((graphDeps graph p v).filter
            (fun d => (top.lookup d.1).isNone)).Sublist (graphDeps graph p v) :=
          List.filter_sublist _
        exact (hsub.map Prod.fst).nodup
          (dedupKeysAux_keys_nodup ((((graph.lookup p).getD []).lookup v).getD []) []).1
      · intro k hk1 hk2
        obtain ⟨d, hd, rfl⟩ := List.mem_map.mp hk2
        have hnone : top.lookup d.1 = none :=
          Option.isNone_iff_eq_none.mp ((List.mem_filter.mp hd).2)
        have hsome := lookup_isSome_of_mem_keys d.1 top hk1
        rw [hnone] at hsome
        simp at hsome

theorem layoutModel_diamond_placement
    (rootDeps : List (String × String))
    (graph : List (String × List (String × List (String × String))))
    (fb : List (String × List (String × String)))
    (D P v1 v2 pv : String) (fuel : Nat)
    (hDr : (D, v1) ∈ dedupKeys rootDeps)
    (hPr : (P, pv) ∈ dedupKeys rootDeps)
    (hdep : (D, v2) ∈ graphDeps graph P pv)
    (hne : v1 ≠ v2)
    (path1 c1 path2 c2 : String)
    (hf1 : (path1, c1) ∈ (fb.lookup (D ++ "@" ++ v1)).getD [])
    (hf2 : (path2, c2) ∈ (fb.lookup (D ++ "@" ++ v2)).getD []) :
    (D ++ "/" ++ path1, c1) ∈ buildFilesDir fb "" (layoutModel rootDeps graph (fuel + 1))
    ∧ (P ++ "/node_modules/" ++ D ++ "/" ++ path2, c2)
        ∈ buildFilesDir fb "" (layoutModel rootDeps graph (fuel + 1)) := by
  obtain ⟨ext, hext⟩ :=
    hoistTop_extends graph (fuel + 1) (dedupKeys rootDeps) (dedupKeys rootDeps)
  have hDtop : (D, v1) ∈ hoistTop graph (fuel + 1) (dedupKeys rootDeps) (dedupKeys rootDeps) := by
    rw [hext]
    exact List.mem_append.mpr (Or.inl hDr)
  have hPtop : (P, pv) ∈ hoistTop graph (fuel + 1) (dedupKeys rootDeps) (dedupKeys rootDeps) := by
    rw [hext]
    exact List.mem_append.mpr (Or.inl hPr)
  have hnd : ((hoistTop graph (fuel + 1) (dedupKeys rootDeps)
      (dedupKeys rootDeps)).map Prod.fst).Nodup :=
    hoistTop_keys_nodup graph (fuel + 1) _ _ (dedupKeysAux_keys_nodup rootDeps []).1
  have hlook : (hoistTop graph (fuel + 1) (dedupKeys rootDeps)
      (dedupKeys rootDeps)).lookup D = some v1 :=
    lookup_of_mem_nodup D v1 _ hDtop hnd
  obtain ⟨sub, hsub⟩ := nestDir_conflict_mem graph fuel
    (hoistTop graph (fuel + 1) (dedupKeys rootDeps) (dedupKeys rootDeps)) P pv D v1 v2
    hdep hlook hne
  have hL : buildFilesDir fb "" (layoutModel rootDeps graph (fuel + 1))
      = buildFilesEntries fb ""
          ((hoistTop graph (fuel + 1) (dedupKeys rootDeps) (dedupKeys rootDeps)).map
            (fun d => (d.1, d.2, nestDir graph (fuel + 1)
              (hoistTop graph (fuel + 1) (dedupKeys rootDeps) (dedupKeys rootDeps)) d.1 d.2))) := by
    simp [layoutModel, buildFilesDir]
  have hpfx : ("" ++ P ++ "/node_modules" : String) ≠ "" := by
    intro h
    have h2 := congrArg String.data h
    simp [String.data_append] at h2
  constructor
  · rw [hL, show D ++ "/" ++ path1 = "" ++ D ++ "/" ++ path1 by rw [String.empty_append]]
    exact buildFilesEntries_mem_here fb "" D v1 _ _
      (List.mem_map.mpr ⟨(D, v1), hDtop, rfl⟩) path1 c1 hf1
  · rw [hL, show P ++ "/node_modules/" ++ D ++ "/" ++ path2
        = (("" ++ P ++ "/node_modules") ++ "/") ++ D ++ "/" ++ path2 by
        apply String.ext
        simp [String.data_append]]
    apply buildFilesEntries_mem_nested fb "" P pv
      (nestDir graph (fuel + 1)
        (hoistTop graph (fuel + 1) (dedupKeys rootDeps) (dedupKeys rootDeps)) P pv) _
      (List.mem_map.mpr ⟨(P, pv), hPtop, rfl⟩)
    rcases hmk : nestDir graph (fuel + 1)
      (hoistTop graph (fuel + 1) (dedupKeys rootDeps) (dedupKeys rootDeps)) P pv with ⟨es⟩
    rw [hmk] at hsub
    simp only [NMDir.entries] at hsub
    simp only [buildFilesDir]
    rw [if_neg hpfx]
    exact buildFilesEntries_mem_here fb _ D v2 sub es hsub path2 c2 hf2

/-- C5: conflicting-version diamonds in the `getFiles` layout. (1) Whenever the
root dependencies place `D@v1` and `P@pv`, and `P@pv`'s recorded dependencies
require `D@v2` with `v2 ≠ v1`, the emitted file map carries `D@v1`'s files at
`D/...` and a second copy of `D@v2`'s files nested at `P/node_modules/D/...`.
(2) A package whose version every requirer (root and graph edges alike) agrees
on appears at most once in the whole layout tree — it is never duplicated.
(3) `getFiles` is exactly `_buildFiles` applied to the layout of the recorded
root dependencies and dependency graph over the grouped non-error fetch
results. -/
theorem diamond_version_conflict_nesting :
    (∀ (rootDeps : List (String × String))
       (graph : List (String × List (String × List (String × String))))
       (fb : List (String × List (String × String)))
       (D P v1 v2 pv : String) (fuel : Nat) (path1 c1 path2 c2 : String),
      (D, v1) ∈ dedupKeys rootDeps →
      (P, pv) ∈ dedupKeys rootDeps →
      (D, v2) ∈ graphDeps graph P pv →
      v1 ≠ v2 →
      (path1, c1) ∈ (fb.lookup (D ++ "@" ++ v1)).getD [] →
      (path2, c2) ∈ (fb.lookup (D ++ "@" ++ v2)).getD [] →
      (D ++ "/" ++ path1, c1) ∈ buildFilesDir fb "" (layoutModel rootDeps graph (fuel + 1))
      ∧ (P ++ "/node_modules/" ++ D ++ "/" ++ path2, c2)
          ∈ buildFilesDir fb "" (layoutModel rootDeps graph (fuel + 1)))
    ∧ (∀ (rootDeps : List (String × String))
         (graph : List (String × List (String × List (String × String))))
         (D dv : String) (fuel : Nat),
        (∀ v', (D, v') ∈ dedupKeys rootDeps → v' = dv) →
        (∀ (p v v' : String) (pvs : List (String × List (String × String)))
           (deps : List (String × String)),
          (p, pvs) ∈ graph → (v, deps) ∈ pvs → (D, v') ∈ deps → v' = dv) →
        countPkgDir D (layoutModel rootDeps graph fuel) ≤ 1)
    ∧ (∀ (st : TFState) (fuel : Nat),
        getFilesModel st fuel
          = buildFilesDir (filesByPvOf st.specifierToFetchResult) ""
              (layoutModel (dedupKeys st.rootDependencies.reverse) st.dependencyGraph fuel)) := by
  refine ⟨?_, ?_, ?_⟩
  · intro rootDeps graph fb D P v1 v2 pv fuel path1 c1 path2 c2 h1 h2 h3 h4 h5 h6
    exact layoutModel_diamond_placement rootDeps graph fb D P v1 v2 pv fuel
      h1 h2 h3 h4 path1 c1 path2 c2 h5 h6
  · intro rootDeps graph D dv fuel h1 h2
    exact layoutModel_count_le_one rootDeps graph D dv fuel h1 h2
  · intro st fuel
    rfl

/-- Witness for C5 at the conflicting-versions diamond of the repository test
suite: root dependencies `foo@1.2.3` and `bar@1.2.3`, recorded edge
`foo@1.2.3 → bar@2.3.4`; `bar@1.2.3`'s typings land at `bar/index.d.ts`, the
conflicting copy at `foo/node_modules/bar/index.d.ts`, and `foo` (agreed at
`1.2.3` by everyone) appears at most once. -/
theorem diamond_version_conflict_nesting_witness :
    (("bar" ++ "/" ++ "index.d.ts", "DTS-BAR1") ∈ buildFilesDir
        [("bar@1.2.3", [("index.d.ts", "DTS-BAR1")]),
         ("bar@2.3.4", [("index.d.ts", "DTS-BAR2")])] ""
        (layoutModel [("foo", "1.2.3"), ("bar", "1.2.3")]
          [("foo", [("1.2.3", [("bar", "2.3.4")])])] (2 + 1))
      ∧ ("foo" ++ "/node_modules/" ++ "bar" ++ "/" ++ "index.d.ts", "DTS-BAR2") ∈ buildFilesDir
        [("bar@1.2.3", [("index.d.ts", "DTS-BAR1")]),
         ("bar@2.3.4", [("index.d.ts", "DTS-BAR2")])] ""
        (layoutModel [("foo", "1.2.3"), ("bar", "1.2.3")]
          [("foo", [("1.2.3", [("bar", "2.3.4")])])] (2 + 1)))
    ∧ countPkgDir "foo" (layoutModel [("foo", "1.2.3"), ("bar", "1.2.3")]
        [("foo", [("1.2.3", [("bar", "2.3.4")])])] 3) ≤ 1 := by
  constructor
  · exact diamond_version_conflict_nesting.1
      [("foo", "1.2.3"), ("bar", "1.2.3")]
      [("foo", [("1.2.3", [("bar", "2.3.4")])])]
      [("bar@1.2.3", [("index.d.ts", "DTS-BAR1")]), ("bar@2.3.4", [("index.d.ts", "DTS-BAR2")])]
      "bar" "foo" "1.2.3" "2.3.4" "1.2.3" 2 "index.d.ts" "DTS-BAR1" "index.d.ts" "DTS-BAR2"
      (by decide) (by decide) (by decide) (by decide) (by decide) (by decide)
  · apply diamond_version_conflict_nesting.2.1
      [("foo", "1.2.3"), ("bar", "1.2.3")]
      [("foo", [("1.2.3", [("bar", "2.3.4")])])] "foo" "1.2.3" 3
    · intro v' h
      simp [dedupKeys, dedupKeysAux] at h
      exact h
    · intro p v v' pvs deps hg hpv hd
      simp at hg
      obtain ⟨rfl, rfl⟩ := hg
      simp at hpv
      obtain ⟨rfl, rfl⟩ := hpv
      simp at hd

/-! Equation lemmas and invariants of the `_handleDependency` crawl. -/

theorem crawl_nil (cdn : String → Option (List String)) (U handled : Finset String) :
    crawl cdn U handled [] = [] := by
  simp [crawl]

theorem crawl_skip (cdn : String → Option (List String)) (U handled : Finset String)
    (k : String) (rest : List String) (h : k ∈ handled ∨ k ∉ U) :
    crawl cdn U handled (k :: rest) = crawl cdn U handled rest := by
  rw [crawl]
  rw [if_pos h]

theorem crawl_fail (cdn : String → Option (List String)) (U handled : Finset String)
    (k : String) (rest : List String) (h : ¬(k ∈ handled ∨ k ∉ U)) (hc : cdn k = none) :
    crawl cdn U handled (k :: rest) = .fetch k :: crawl cdn U (insert k handled) rest := by
  rw [crawl, if_neg h, hc]

theorem crawl_hit (cdn : String → Option (List String)) (U handled : Finset String)
    (k : String) (deps rest : List String) (h : ¬(k ∈ handled ∨ k ∉ U))
    (hc : cdn k = some deps) :
    crawl cdn U handled (k :: rest)
      = .fetch k :: .emit k :: crawl cdn U (insert k handled) (deps ++ rest) := by
  rw [crawl, if_neg h, hc]

theorem fetchedKeys_fetch_cons (k : String) (t : List CrawlEvent) :
    fetchedKeys (.fetch k :: t) = k :: fetchedKeys t := rfl

theorem fetchedKeys_emit_cons (k : String) (t : List CrawlEvent) :
    fetchedKeys (.emit k :: t) = fetchedKeys t := rfl

theorem emittedKeys_fetch_cons (k : String) (t : List CrawlEvent) :
    emittedKeys (.fetch k :: t) = emittedKeys t := rfl

theorem emittedKeys_emit_cons (k : String) (t : List CrawlEvent) :
    emittedKeys (.emit k :: t) = k :: emittedKeys t := rfl

theorem crawl_fetched_not_handled (cdn : String → Option (List String)) (U : Finset String) :
    ∀ (handled : Finset String) (w : List String),
      ∀ x ∈ fetchedKeys (crawl cdn U handled w), x ∉ handled := by
  refine crawl.induct cdn U
    (fun handled w => ∀ x ∈ fetchedKeys (crawl cdn U handled w), x ∉ handled) ?_ ?_ ?_ ?_
  · intro handled x hx
    rw [crawl_nil] at hx
    cases hx
  · intro handled k rest h ih x hx
    rw [crawl_skip cdn U handled k rest h] at hx
    exact ih x hx
  · intro handled k rest h hc ih x hx
    rw [crawl_fail cdn U handled k rest h hc, fetchedKeys_fetch_cons] at hx
    push_neg at h
    rcases List.mem_cons.mp hx with rfl | hx2
    · exact h.1
    · intro hxh
      exact ih x hx2 (Finset.mem_insert.mpr (Or.inr hxh))
  · intro handled k rest h deps hc ih x hx
    rw [crawl_hit cdn U handled k deps rest h hc, fetchedKeys_fetch_cons,
      fetchedKeys_emit_cons] at hx
    push_neg at h
    rcases List.mem_cons.mp hx with rfl | hx2
    · exact h.1
    · intro hxh
      exact ih x hx2 (Finset.mem_insert.mpr (Or.inr hxh))

theorem crawl_fetched_nodup (cdn : String → Option (List String)) (U : Finset String) :
    ∀ (handled : Finset String) (w : List String),
      (fetchedKeys (crawl cdn U handled w)).Nodup := by
  refine crawl.induct cdn U
    (fun handled w => (fetchedKeys (crawl cdn U handled w)).Nodup) ?_ ?_ ?_ ?_
  · intro handled
    rw [crawl_nil]
    exact List.nodup_nil
  · intro handled k rest h ih
    rw [crawl_skip cdn U handled k rest h]
    exact ih
  · intro handled k rest h hc ih
    rw [crawl_fail cdn U handled k rest h hc, fetchedKeys_fetch_cons]
    exact List.nodup_cons.mpr
      ⟨fun hmem => crawl_fetched_not_handled cdn U (insert k handled) rest k hmem
        (Finset.mem_insert_self k handled), ih⟩
  · intro handled k rest h deps hc ih
    rw [crawl_hit cdn U handled k deps rest h hc, fetchedKeys_fetch_cons,
      fetchedKeys_emit_cons]
    exact List.nodup_cons.mpr
      ⟨fun hmem => crawl_fetched_not_handled cdn U (insert k handled) (deps ++ rest) k hmem
        (Finset.mem_insert_self k handled), ih⟩

theorem crawl_emitted_sublist (cdn : String → Option (List String)) (U : Finset String) :
    ∀ (handled : Finset String) (w : List String),
      (emittedKeys (crawl cdn U handled w)).Sublist (fetchedKeys (crawl cdn U handled w)) := by
  refine crawl.induct cdn U
    (fun handled w =>
      (emittedKeys (crawl cdn U handled w)).Sublist (fetchedKeys (crawl cdn U handled w)))
    ?_ ?_ ?_ ?_
  · intro handled
    rw [crawl_nil]
    exact List.Sublist.refl _
  · intro handled k rest h ih
    rw [crawl_skip cdn U handled k rest h]
    exact ih
  · intro handled k rest h hc ih
    rw [crawl_fail cdn U handled k rest h hc, fetchedKeys_fetch_cons, emittedKeys_fetch_cons]
    exact ih.cons k
  · intro handled k rest h deps hc ih
    rw [crawl_hit cdn U handled k deps rest h hc, fetchedKeys_fetch_cons,
      fetchedKeys_emit_cons, emittedKeys_fetch_cons, emittedKeys_emit_cons]
    exact ih.cons₂ k

theorem crawl_emitted_sound (cdn : String → Option (List String)) (U : Finset String)
    (roots : List String) :
    ∀ (handled : Finset String) (w : List String),
      (∀ j ∈ w, ∀ jdeps, cdn j = some jdeps → Reachable cdn roots j) →
      ∀ x ∈ emittedKeys (crawl cdn U handled w), Reachable cdn roots x := by
  refine crawl.induct cdn U
    (fun handled w =>
      (∀ j ∈ w, ∀ jdeps, cdn j = some jdeps → Reachable cdn roots j) →
      ∀ x ∈ emittedKeys (crawl cdn U handled w), Reachable cdn roots x) ?_ ?_ ?_ ?_
  · intro handled hw x hx
    rw [crawl_nil] at hx
    cases hx
  · intro handled k rest h ih hw x hx
    rw [crawl_skip cdn U handled k rest h] at hx
    exact ih (fun j hj => hw j (List.mem_cons_of_mem _ hj)) x hx
  · intro handled k rest h hc ih hw x hx
    rw [crawl_fail cdn U handled k rest h hc, emittedKeys_fetch_cons] at hx
    exact ih (fun j hj => hw j (List.mem_cons_of_mem _ hj)) x hx
  · intro handled k rest h deps hc ih hw x hx
    rw [crawl_hit cdn U handled k deps rest h hc, emittedKeys_fetch_cons,
      emittedKeys_emit_cons] at hx
    have hk : Reachable cdn roots k := hw k (List.mem_cons_self _ _) deps hc
    rcases List.mem_cons.mp hx with rfl | hx2
    · exact hk
    · apply ih ?_ x hx2
      intro j hj jdeps hjc
      rcases List.mem_append.mp hj with hjd | hjr
      · exact Reachable.step hk hc hjd hjc
      · exact hw j (List.mem_cons_of_mem _ hjr) jdeps hjc

theorem crawl_master (cdn : String → Option (List String)) (U : Finset String)
    (Hcl : ∀ k deps, cdn k = some deps → ∀ d ∈ deps, d ∈ U) :
    ∀ (handled : Finset String) (w : List String),
      (∀ j ∈ w, j ∈ U) →
      (∀ j ∈ handled, ∀ jdeps, cdn j = some jdeps → ∀ d ∈ jdeps, d ∈ handled ∨ d ∈ w) →
      (∀ j ∈ w, ∀ jdeps, cdn j = some jdeps →
          j ∈ emittedKeys (crawl cdn U handled w) ∨ j ∈ handled)
      ∧ (∀ j ∈ emittedKeys (crawl cdn U handled w), ∀ jdeps, cdn j = some jdeps →
          ∀ d ∈ jdeps, ∀ ddeps, cdn d = some ddeps →
            d ∈ emittedKeys (crawl cdn U handled w) ∨ d ∈ handled) := by
  refine crawl.induct cdn U
    (fun handled w =>
      (∀ j ∈ w, j ∈ U) →
      (∀ j ∈ handled, ∀ jdeps, cdn j = some jdeps → ∀ d ∈ jdeps, d ∈ handled ∨ d ∈ w) →
      (∀ j ∈ w, ∀ jdeps, cdn j = some jdeps →
          j ∈ emittedKeys (crawl cdn U handled w) ∨ j ∈ handled)
      ∧ (∀ j ∈ emittedKeys (crawl cdn U handled w), ∀ jdeps, cdn j = some jdeps →
          ∀ d ∈ jdeps, ∀ ddeps, cdn d = some ddeps →
            d ∈ emittedKeys (crawl cdn U handled w) ∨ d ∈ handled)) ?_ ?_ ?_ ?_
  · intro handled hwU hinv
    rw [crawl_nil]
    constructor
    · intro j hj
      cases hj
    · intro j hj
      simp [emittedKeys] at hj
  · intro handled k rest h ih hwU hinv
    have hkh : k ∈ handled := h.resolve_right (fun hnU => hnU (hwU k (List.mem_cons_self _ _)))
    rw [crawl_skip cdn U handled k rest h]
    have ih2 := ih (fun j hj => hwU j (List.mem_cons_of_mem _ hj))
      (by
        intro j hj jdeps hjc d hd
        rcases hinv j hj jdeps hjc d hd with hdh | hdw
        · exact Or.inl hdh
        · rcases List.mem_cons.mp hdw with rfl | hdr
          · exact Or.inl hkh
          · exact Or.inr hdr)
    constructor
    · intro j hj jdeps hjc
      rcases List.mem_cons.mp hj with rfl | hjr
      · exact Or.inr hkh
      · exact ih2.1 j hjr jdeps hjc
    · exact ih2.2
  · intro handled k rest h hc ih hwU hinv
    rw [crawl_fail cdn U handled k rest h hc, emittedKeys_fetch_cons]
    have ih2 := ih (fun j hj => hwU j (List.mem_cons_of_mem _ hj))
      (by
        intro j hj jdeps hjc d hd
        rcases Finset.mem_insert.mp hj with rfl | hjh
        · rw [hc] at hjc
          cases hjc
        · rcases hinv j hjh jdeps hjc d hd with hdh | hdw
          · exact Or.inl (Finset.mem_insert.mpr (Or.inr hdh))
          · rcases List.mem_cons.mp hdw with rfl | hdr
            · exact Or.inl (Finset.mem_insert_self _ _)
            · exact Or.inr hdr)
    constructor
    · intro j hj jdeps hjc
      rcases List.mem_cons.mp hj with rfl | hjr
      · rw [hc] at hjc
        cases hjc
      · rcases ih2.1 j hjr jdeps hjc with hE | hins
        · exact Or.inl hE
        · rcases Finset.mem_insert.mp hins with rfl | hjh
          · rw [hc] at hjc
            cases hjc
          · exact Or.inr hjh
    · intro j hj jdeps hjc d hd ddeps hdc
      rcases ih2.2 j hj jdeps hjc d hd ddeps hdc with hE | hins
      · exact Or.inl hE
      · rcases Finset.mem_insert.mp hins with rfl | hdh
        · rw [hc] at hdc
          cases hdc
        · exact Or.inr hdh
  · intro handled k rest h deps hc ih hwU hinv
    rw [crawl_hit cdn U handled k deps rest h hc, emittedKeys_fetch_cons, emittedKeys_emit_cons]
    have hwU2 : ∀ j ∈ deps ++ rest, j ∈ U := by
      intro j hj
      rcases List.mem_append.mp hj with hjd | hjr
      · exact Hcl k deps hc j hjd
      · exact hwU j (List.mem_cons_of_mem _ hjr)
    have hinv2 : ∀ j ∈ insert k handled, ∀ jdeps, cdn j = some jdeps →
        ∀ d ∈ jdeps, d ∈ insert k handled ∨ d ∈ deps ++ rest := by
      intro j hj jdeps hjc d hd
      rcases Finset.mem_insert.mp hj with rfl | hjh
      · rw [hc] at hjc
        injection hjc with he
        subst he
        exact Or.inr (List.mem_append.mpr (Or.inl hd))
      · rcases hinv j hjh jdeps hjc d hd with hdh | hdw
        · exact Or.inl (Finset.mem_insert.mpr (Or.inr hdh))
        · rcases List.mem_cons.mp hdw with rfl | hdr
          · exact Or.inl (Finset.mem_insert_self _ _)
          · exact Or.inr (List.mem_append.mpr (Or.inr hdr))
    have ih2 := ih hwU2 hinv2
    constructor
    · intro j hj jdeps hjc
      rcases List.mem_cons.mp hj with rfl | hjr
      · exact Or.inl (List.mem_cons_self _ _)
      · rcases ih2.1 j (List.mem_append.mpr (Or.inr hjr)) jdeps hjc with hE | hins
        · exact Or.inl (List.mem_cons_of_mem _ hE)
        · rcases Finset.mem_insert.mp hins with rfl | hjh
          · exact Or.inl (List.mem_cons_self _ _)
          · exact Or.inr hjh
    · intro j hj jdeps hjc d hd ddeps hdc
      rcases List.mem_cons.mp hj with rfl | hjE
      · rw [hc] at hjc
        injection hjc with he
        subst he
        rcases ih2.1 d (List.mem_append.mpr (Or.inl hd)) ddeps hdc with hE | hins
        · exact Or.inl (List.mem_cons_of_mem _ hE)
        · rcases Finset.mem_insert.mp hins with rfl | hdh
          · exact Or.inl (List.mem_cons_self _ _)
          · exact Or.inr hdh
      · rcases ih2.2 j hjE jdeps hjc d hd ddeps hdc with hE | hins
        · exact Or.inl (List.mem_cons_of_mem _ hE)
        · rcases Finset.mem_insert.mp hins with rfl | hdh
          · exact Or.inl (List.mem_cons_self _ _)
          · exact Or.inr hdh

theorem reachable_cdn_isSome (cdn : String → Option (List String)) (roots : List String)
    (x : String) (h : Reachable cdn roots x) : ∃ deps, cdn x = some deps := by
  cases h with
  | root hr hc => exact ⟨_, hc⟩
  | step hj hjc hm hc => exact ⟨_, hc⟩

theorem crawl_emitted_complete (cdn : String → Option (List String)) (U : Finset String)
    (roots : List String)
    (HrU : ∀ j ∈ roots, j ∈ U)
    (Hcl : ∀ k deps, cdn k = some deps → ∀ d ∈ deps, d ∈ U) :
    ∀ x, Reachable cdn roots x → x ∈ emittedKeys (crawl cdn U ∅ roots) := by
  have hm := crawl_master cdn U Hcl ∅ roots HrU
    (by intro j hj; exact absurd hj (Finset.not_mem_empty j))
  intro x hx
  induction hx with
  | root hr hc =>
    rcases hm.1 _ hr _ hc with hE | hemp
    · exact hE
    · exact absurd hemp (Finset.not_mem_empty _)
  | step hj hjc hmem hc ih =>
    rcases hm.2 _ ih _ hjc _ hmem _ hc with hE | hemp
    · exact hE
    · exact absurd hemp (Finset.not_mem_empty _)

/-- A two-key cyclic CDN: fetching `A` discovers an import of `B` and fetching
`B` discovers an import of `A`. -/
def cycleCdn : String → Option (List String) := fun k =>
  if k = "A" then some ["B"]
  else if k = "B" then some ["A"]
  else none

def cycleU : Finset String := {"A", "B"}

/-- C1: at-most-once processing by the handled-set of `_handleDependency`.
(1) A key already in the handled set is skipped: the crawl of `k :: w` equals
the crawl of `w`, with no fetch and no emission for `k`. (2) Over any crawl
from an empty handled set, the fetched keys and the emitted keys are each free
of duplicates, also on cyclic import graphs. (3) When the key universe is
closed under the CDN's dependency lists, the set of emitted keys is exactly
the set of distinct reachable keys — the crawl's output is keyed by reachable
files, not by import edges. -/
theorem handled_dedup_and_emitted_eq_reachable :
    (∀ (cdn : String → Option (List String)) (U handled : Finset String)
       (k : String) (w : List String), k ∈ handled →
        crawl cdn U handled (k :: w) = crawl cdn U handled w)
    ∧ (∀ (cdn : String → Option (List String)) (U : Finset String) (roots : List String),
        (fetchedKeys (crawl cdn U ∅ roots)).Nodup
        ∧ (emittedKeys (crawl cdn U ∅ roots)).Nodup)
    ∧ (∀ (cdn : String → Option (List String)) (U : Finset String) (roots : List String),
        (∀ j ∈ roots, j ∈ U) →
        (∀ k deps, cdn k = some deps → ∀ d ∈ deps, d ∈ U) →
        ∀ x, x ∈ emittedKeys (crawl cdn U ∅ roots) ↔ Reachable cdn roots x) := by
  refine ⟨?_, ?_, ?_⟩
  · intro cdn U handled k w hk
    exact crawl_skip cdn U handled k w (Or.inl hk)
  · intro cdn U roots
    exact ⟨crawl_fetched_nodup cdn U ∅ roots,
      (crawl_emitted_sublist cdn U ∅ roots).nodup (crawl_fetched_nodup cdn U ∅ roots)⟩
  · intro cdn U roots hrU hcl x
    constructor
    · intro hx
      exact crawl_emitted_sound cdn U roots ∅ roots
        (fun j hj jdeps hjc => Reachable.root hj hjc) x hx
    · intro hx
      exact crawl_emitted_complete cdn U roots hrU hcl x hx

/-- Witness for C1 on the two-element import cycle `A ↔ B` crawled from root
`A`: a crawl whose handled set already holds `A` skips it; the crawl from the
empty handled set emits no duplicates; and `B`'s emission is equivalent to its
reachability from `A`. -/
theorem handled_dedup_and_emitted_eq_reachable_witness :
    crawl cycleCdn cycleU {"A"} ["A"] = crawl cycleCdn cycleU {"A"} []
    ∧ (emittedKeys (crawl cycleCdn cycleU ∅ ["A"])).Nodup
    ∧ ("B" ∈ emittedKeys (crawl cycleCdn cycleU ∅ ["A"]) ↔ Reachable cycleCdn ["A"] "B") := by
  refine ⟨?_, ?_, ?_⟩
  · exact handled_dedup_and_emitted_eq_reachable.1 cycleCdn cycleU {"A"} "A" [] (by decide)
  · exact (handled_dedup_and_emitted_eq_reachable.2.1 cycleCdn cycleU ["A"]).2
  · exact handled_dedup_and_emitted_eq_reachable.2.2 cycleCdn cycleU ["A"]
      (by decide)
      (by
        intro k deps h d hd
        unfold cycleCdn at h
        split at h
        · injection h with he
          subst he
          simp at hd
          subst hd
          decide
        · split at h
          · injection h with he
            subst he
            simp at hd
            subst hd
            decide
          · cases h)
      "B"

end Playground
